import Mathlib

set_option linter.unusedSectionVars false

/-!
Verification development for the naverdict proxy service.

This file gives a shallow embedding of the request-handling pipeline of the
repository (cache, rate limiter, retry orchestrator, normalizer, response
patching, single-word pipeline, batch pipeline) and proves or refutes the
frozen claims about it.

Modelling conventions:
- Python dictionaries are modelled as insertion-ordered association lists
  (lookup returns the value of the first matching pair; inserting an existing
  key updates the value in place; inserting a new key appends; deletion
  filters the key out).  Reachable dictionary states have pairwise-distinct
  keys, so the first-match convention coincides with Python semantics.
- Wall-clock timestamps (Python floats from time.time) are modelled by a
  linearly ordered time type with addition; the faithful instantiation is ℚ,
  and concrete witnesses instantiate ℤ so that the kernel can evaluate them.
- The MD5 hex digest used by the cache key derivation is an opaque
  String to String function parameter.
-/

namespace NaverDict

/-- Lookup in a Python-style dict modelled as an association list:
returns the value of the first pair whose key matches. -/
def dlookup {α : Type} (d : List (String × α)) (k : String) : Option α :=
  match d with
  | [] => none
  | (k0, v0) :: rest => if k0 = k then some v0 else dlookup rest k

/-- Membership test for a Python-style dict (the `in` operator). -/
def dmem {α : Type} (d : List (String × α)) (k : String) : Bool :=
  d.any (fun p => p.1 = k)

/-- Insertion into a Python-style dict: an existing key keeps its position
and gets the new value; a new key is appended at the end. -/
def dinsert {α : Type} (d : List (String × α)) (k : String) (v : α) :
    List (String × α) :=
  if dmem d k then
    d.map (fun p => if p.1 = k then (k, v) else p)
  else
    d ++ [(k, v)]

/-- Deletion from a Python-style dict (the `del` statement; a no-op when the
key is absent, matching the guarded deletes in the source). -/
def derase {α : Type} (d : List (String × α)) (k : String) : List (String × α) :=
  d.filter (fun p => ¬ (p.1 = k))

/-- Cache key modes supported by the cache (config value CACHE_KEY_MODE). -/
inductive KeyMode where
  | hash
  | plain
  | hashWithPlain
deriving DecidableEq, Repr

/-- Embedding of TTLCache._make_plain_key: the readable plain key used by the
plain and hash_with_plain modes, joining word and dict type with a colon. -/
def make_plain_key (word dict_type : String) : String :=
  word ++ ":" ++ dict_type

/-- Embedding of TTLCache._make_key. The md5 argument stands for the
hexadecimal MD5 digest function applied to the UTF-8 bytes of the plain key. -/
def make_key (md5 : String → String) (mode : KeyMode) (word dict_type : String) :
    String :=
  let plain := make_plain_key word dict_type
  let digest := md5 plain
  match mode with
  | .hash => digest
  | .plain => plain
  | .hashWithPlain => plain ++ "|" ++ digest

/-- State of TTLCache over a time type τ: the entry table maps cache key to
(value, expires_at); the side table access_times maps cache key to last
access time. Values are the serialized response strings the pipeline
stores. -/
structure TTLCache (τ : Type) where
  cache : List (String × (String × τ))
  max_size : ℕ
  ttl : τ
  key_mode : KeyMode
  access_times : List (String × τ)
deriving DecidableEq, Repr

variable {τ : Type} [LinearOrder τ] [Add τ]

/-- Embedding of TTLCache.get. Returns the hit value (if present and not
expired) together with the updated cache state: a fresh hit updates the
access timestamp; an expired hit deletes the entry and its access-timestamp
record; a miss leaves the state unchanged. -/
def TTLCache.get (md5 : String → String) (c : TTLCache τ)
    (word dict_type : String) (now : τ) : Option String × TTLCache τ :=
  let key := make_key md5 c.key_mode word dict_type
  match dlookup c.cache key with
  | some (value, expires_at) =>
    if now < expires_at then
      (some value, { c with access_times := dinsert c.access_times key now })
    else
      (none, { c with cache := derase c.cache key,
                      access_times := derase c.access_times key })
  | none => (none, c)

/-- Helper for TTLCache._evict_lru: the first key attaining the minimal
access time (Python min over dict keys returns the first minimal element in
iteration order). Returns none exactly when the table is empty. -/
def oldest_key (ats : List (String × τ)) : Option String :=
  (ats.foldl
    (fun acc p =>
      match acc with
      | none => some p
      | some q => if p.2 < q.2 then some p else acc)
    none).map Prod.fst

/-- Embedding of TTLCache._evict_lru: removes the entry whose access time is
the least recent (no-op when the access table is empty). -/
def TTLCache.evict_lru (c : TTLCache τ) : TTLCache τ :=
  match oldest_key c.access_times with
  | none => c
  | some k => { c with cache := derase c.cache k,
                       access_times := derase c.access_times k }

/-- Embedding of TTLCache.set. Note the source checks the size bound and
evicts before computing the key, hence even a re-set of an existing key at
capacity triggers an eviction. The optional ttl argument overrides the
default per entry. -/
def TTLCache.set (md5 : String → String) (c : TTLCache τ)
    (word dict_type value : String) (ttl? : Option τ) (now : τ) : TTLCache τ :=
  let c1 := if c.max_size ≤ c.cache.length then c.evict_lru else c
  let key := make_key md5 c1.key_mode word dict_type
  let ttl_seconds := ttl?.getD c1.ttl
  { c1 with cache := dinsert c1.cache key (value, now + ttl_seconds),
            access_times := dinsert c1.access_times key now }

end NaverDict

namespace NaverDict

variable {τ : Type} [LinearOrder τ] [Add τ]

/-- Claim C7: the cache never returns an entry at or past its expires_at.
For every get performed at time now: a value is returned iff an entry for the
derived key exists with now strictly before expires_at (and then its access
timestamp is updated); an expired entry is deleted from both tables and a
miss returned; an absent key is a miss that leaves the state unchanged. -/
theorem cache_get_ttl_spec (md5 : String → String) (c : TTLCache τ)
    (word dict_type : String) (now : τ) :
    (∀ v, (c.get md5 word dict_type now).1 = some v ↔
      ∃ exp, dlookup c.cache (make_key md5 c.key_mode word dict_type) =
        some (v, exp) ∧ now < exp) ∧
    (∀ v exp,
      dlookup c.cache (make_key md5 c.key_mode word dict_type) = some (v, exp) →
      now < exp →
      (c.get md5 word dict_type now).2 =
        { c with access_times :=
            dinsert c.access_times (make_key md5 c.key_mode word dict_type) now }) ∧
    (∀ v exp,
      dlookup c.cache (make_key md5 c.key_mode word dict_type) = some (v, exp) →
      ¬ now < exp →
      (c.get md5 word dict_type now).1 = none ∧
      (c.get md5 word dict_type now).2 =
        { c with
            cache := derase c.cache (make_key md5 c.key_mode word dict_type),
            access_times :=
              derase c.access_times (make_key md5 c.key_mode word dict_type) }) ∧
    (dlookup c.cache (make_key md5 c.key_mode word dict_type) = none →
      (c.get md5 word dict_type now).1 = none ∧
      (c.get md5 word dict_type now).2 = c) := by
  refine ⟨?_, ?_, ?_, ?_⟩
  · intro v
    constructor
    · intro h
      unfold TTLCache.get at h
      rcases hl : dlookup c.cache (make_key md5 c.key_mode word dict_type) with
        _ | ⟨v0, e0⟩
      · simp [hl] at h
      · simp only [hl] at h
        by_cases hlt : now < e0
        · simp [hlt] at h
          exact ⟨e0, by rw [← h], hlt⟩
        · simp [hlt] at h
    · rintro ⟨exp, hl, hlt⟩
      unfold TTLCache.get
      simp [hl, hlt]
  · intro v exp hl hlt
    unfold TTLCache.get
    simp [hl, hlt]
  · intro v exp hl hlt
    unfold TTLCache.get
    simp [hl, hlt]
  · intro hl
    unfold TTLCache.get
    simp [hl]

/-- Witness for cache_get_ttl_spec: a concrete plain-mode cache with one
fresh entry answers the corresponding get. -/
def c7cache : TTLCache ℤ :=
  { cache := [("w:d", ("v", 2))], max_size := 10, ttl := 5,
    key_mode := .plain, access_times := [("w:d", 0)] }

theorem cache_get_ttl_spec_witness :
    (c7cache.get id "w" "d" 1).1 = some "v" := by
  have h := (cache_get_ttl_spec id c7cache "w" "d" 1).1 "v"
  exact h.mpr ⟨2, by decide, by decide⟩

/-- Claim C9: in the plain and hash_with_plain key modes the cache key joins
word and variant with an unescaped colon, so the key function is not
injective: the distinct pairs ("a:b", "c") and ("a", "b:c") collide, and a
set for the first pair makes a get for the second pair return the first
pair's value. -/
theorem plain_key_not_injective :
    (∀ md5 : String → String,
      make_key md5 .plain "a:b" "c" = make_key md5 .plain "a" "b:c") ∧
    (∀ md5 : String → String,
      make_key md5 .hashWithPlain "a:b" "c" =
        make_key md5 .hashWithPlain "a" "b:c") ∧
    (("a:b", "c") ≠ (("a", "b:c") : String × String)) ∧
    ((((⟨[], 10, 60, .plain, []⟩ : TTLCache ℤ).set id "a:b" "c" "stored" none
        0).get id "a" "b:c" 1).1 = some "stored") := by
  exact ⟨fun md5 => rfl, fun md5 => rfl, by decide, by decide⟩

/-- Concrete capacity-2 plain-mode cache states for the C3 counterexample:
insert key a at time 0, key b at time 1, then re-set the already present
key b at time 2. -/
def c3s2 : TTLCache ℤ :=
  ((⟨[], 2, 60, .plain, []⟩ : TTLCache ℤ).set id "a" "d" "va" none 0).set id
    "b" "d" "vb" none 1

def c3s3 : TTLCache ℤ := c3s2.set id "b" "d" "vb2" none 2

/-- Counterexample to claim C3 as stated: at capacity, a set whose derived
key is already present still evicts the least-recently-accessed entry.
Before the set, key b:d is present and key a:d holds a live value; after
re-setting word b, the entry for a is gone (evicted), so an eviction happened
although the key being set was already present. -/
theorem cache_set_eviction_counterexample :
    dmem c3s2.cache "b:d" = true ∧
    dlookup c3s2.cache "a:d" = some ("va", 60) ∧
    dlookup c3s3.cache "a:d" = none ∧
    (c3s3.get id "a" "d" 3).1 = none := by
  refine ⟨by decide, by decide, by decide, by decide⟩

/-- Minimality of the key chosen by oldest_key: it is in the table and its
access time is at most every access time in the table. -/
theorem oldest_key_min (ats : List (String × τ)) (k : String)
    (h : oldest_key ats = some k) :
    ∃ t, (k, t) ∈ ats ∧ ∀ p ∈ ats, t ≤ p.2 := by
  suffices H : ∀ (l : List (String × τ)) (acc : Option (String × τ))
      (q : String × τ),
      (l.foldl
        (fun acc p =>
          match acc with
          | none => some p
          | some q => if p.2 < q.2 then some p else acc)
        acc) = some q →
      (q ∈ l ∨ acc = some q) ∧ (∀ p ∈ l, q.2 ≤ p.2) ∧
        (∀ r, acc = some r → q.2 ≤ r.2) by
    unfold oldest_key at h
    rcases hf : (ats.foldl
        (fun acc p =>
          match acc with
          | none => some p
          | some q => if p.2 < q.2 then some p else acc)
        none) with _ | q
    · rw [hf] at h; simp at h
    · rw [hf] at h; simp at h
      rcases H ats none q hf with ⟨hmem, hmin, _⟩
      rcases hmem with hmem | hbad
      · exact ⟨q.2, by rw [← h]; exact hmem, hmin⟩
      · simp at hbad
  intro l
  induction l with
  | nil =>
    intro acc q h
    simp at h
    exact ⟨Or.inr h, by simp, fun r hr => by rw [h] at hr; simp at hr; rw [hr]⟩
  | cons p rest ih =>
    intro acc q h
    simp only [List.foldl_cons] at h
    rcases ih _ q h with ⟨hmem, hmin, hacc⟩
    have hstep : ∀ r, (match acc with
        | none => some p
        | some q => if p.2 < q.2 then some p else acc) = some r →
        (r = p ∨ acc = some r) ∧ r.2 ≤ p.2 := by
      intro r hr
      rcases acc with _ | a
      · simp at hr
        exact ⟨Or.inl (by rw [hr]), by rw [hr]⟩
      · by_cases hlt : p.2 < a.2
        · simp [hlt] at hr
          exact ⟨Or.inl (by rw [hr]), by rw [hr]⟩
        · simp [hlt] at hr
          constructor
          · right; rw [hr]
          · rw [← hr]; exact le_of_not_lt hlt
    constructor
    · rcases hmem with hmem | hmem
      · exact Or.inl (List.mem_cons_of_mem _ hmem)
      · rcases (hstep q hmem).1 with h1 | h1
        · exact Or.inl (by rw [h1]; exact List.mem_cons_self _ _)
        · exact Or.inr h1
    constructor
    · intro x hx
      rcases List.mem_cons.mp hx with hx | hx
      · rcases acc with _ | a
        · have := hacc p (by simp)
          rw [hx]; exact this
        · by_cases hlt : p.2 < a.2
          · have := hacc p (by simp [hlt])
            rw [hx]; exact this
          · have := hacc a (by simp [hlt])
            rw [hx]
            exact le_trans this (le_of_not_lt hlt)
      · exact hmin x hx
    · intro r hr
      rcases acc with _ | a
      · simp at hr
      · simp at hr
        by_cases hlt : p.2 < a.2
        · have := hacc p (by simp [hlt])
          rw [← hr]
          exact le_trans this (le_of_lt hlt)
        · have := hacc a (by simp [hlt])
          rw [← hr]; exact this

/-- Claim C3 amended: in TTLCache.set an eviction happens exactly when the
cache already holds at least max_size entries at the time of the call,
whether or not the derived key is already present (the source evicts before
even computing the key); the evicted entry is one attaining the
least-recent access timestamp.  The claimed consequence still holds: filling
a capacity-N cache with N+1 distinct keys where the first key is re-accessed
just before the last insertion evicts a key other than the re-accessed one. -/
theorem cache_set_eviction_amended :
    (∀ (md5 : String → String) (c : TTLCache τ) (word dt v : String)
        (ttl? : Option τ) (now : τ),
      c.cache.length < c.max_size →
      (c.set md5 word dt v ttl? now).cache =
        dinsert c.cache (make_key md5 c.key_mode word dt)
          (v, now + ttl?.getD c.ttl)) ∧
    (∀ (md5 : String → String) (c : TTLCache τ) (word dt v : String)
        (ttl? : Option τ) (now : τ),
      c.max_size ≤ c.cache.length →
      (c.set md5 word dt v ttl? now).cache =
        dinsert c.evict_lru.cache (make_key md5 c.key_mode word dt)
          (v, now + ttl?.getD c.ttl)) ∧
    (∀ (c : TTLCache τ) (k : String),
      oldest_key c.access_times = some k →
      c.evict_lru.cache = derase c.cache k ∧
      ∃ t, (k, t) ∈ c.access_times ∧ ∀ p ∈ c.access_times, t ≤ p.2) ∧
    -- capacity-2 scenario: keys a, b inserted, a re-accessed, then key c
    -- inserted: b (the least-recently-used key) is evicted, a survives.
    (((((((⟨[], 2, 60, .plain, []⟩ : TTLCache ℤ).set id "a" "d" "va" none
        0).set id "b" "d" "vb" none 1).get id "a" "d" 2).2.set id "c" "d"
        "vc" none 3).get id "a" "d" 4).1 = some "va" ∧
     ((((((⟨[], 2, 60, .plain, []⟩ : TTLCache ℤ).set id "a" "d" "va" none
        0).set id "b" "d" "vb" none 1).get id "a" "d" 2).2.set id "c" "d"
        "vc" none 3).get id "b" "d" 4).1 = none ∧
     ((((((⟨[], 2, 60, .plain, []⟩ : TTLCache ℤ).set id "a" "d" "va" none
        0).set id "b" "d" "vb" none 1).get id "a" "d" 2).2.set id "c" "d"
        "vc" none 3).get id "c" "d" 4).1 = some "vc") := by
  refine ⟨?_, ?_, ?_, by decide, by decide, by decide⟩
  · intro md5 c word dt v ttl? now h
    unfold TTLCache.set
    simp [Nat.not_le.mpr h]
  · intro md5 c word dt v ttl? now h
    unfold TTLCache.set
    have hkm : c.evict_lru.key_mode = c.key_mode := by
      unfold TTLCache.evict_lru
      rcases oldest_key c.access_times with _ | k <;> simp
    have httl : c.evict_lru.ttl = c.ttl := by
      unfold TTLCache.evict_lru
      rcases oldest_key c.access_times with _ | k <;> simp
    simp [h, hkm, httl]
  · intro c k h
    refine ⟨?_, oldest_key_min c.access_times k h⟩
    unfold TTLCache.evict_lru
    rw [h]

/-- Witness for cache_set_eviction_amended: a below-capacity set on an empty
cache just inserts the new entry. -/
theorem cache_set_eviction_amended_witness :
    ((⟨[], 2, 60, .plain, []⟩ : TTLCache ℤ).set id "a" "d" "va" none 0).cache =
      dinsert [] "a:d" ("va", 0 + 60) := by
  have h := (cache_set_eviction_amended (τ := ℤ)).1 id ⟨[], 2, 60, .plain, []⟩
    "a" "d" "va" none 0 (by decide)
  exact h

/-- Modelled from the spec: the consume-style rate limiter used by the
server layer is not among the provided source files — src/rate_limiter.py
only defines the per-client is_allowed variant, while src/server.py calls
rate_limiter.consume, rate_limiter.can_consume and an argumentless
rate_limiter.get_remaining_tokens.  TokenBucket follows the spec: a single
global bucket with capacity, a current token count, the time of the last
refill and a refill rate in tokens per second. -/
structure TokenBucket where
  capacity : ℚ
  tokens : ℚ
  last_refill : ℚ
  refill_rate : ℚ
deriving DecidableEq, Repr

/-- Modelled from the spec: lazy refill — add elapsed time times refill_rate
tokens, capped at capacity, and update last_refill to now. -/
def TokenBucket.refill (b : TokenBucket) (now : ℚ) : TokenBucket :=
  { b with
      tokens := min b.capacity (b.tokens + (now - b.last_refill) * b.refill_rate),
      last_refill := now }

/-- Modelled from the spec: consume(n) refills lazily, then if the available
tokens are at least n subtracts n and reports allowed, else leaves the token
count unchanged and reports denied. -/
def TokenBucket.consume (b : TokenBucket) (n : ℚ) (now : ℚ) :
    Bool × TokenBucket :=
  let r := b.refill now
  if n ≤ r.tokens then (true, { r with tokens := r.tokens - n })
  else (false, r)

/-- Modelled from the spec: can_consume performs the refill computation and
reports whether n tokens are available, without consuming. -/
def TokenBucket.can_consume (b : TokenBucket) (n : ℚ) (now : ℚ) : Bool :=
  n ≤ (b.refill now).tokens

/-- Modelled from the spec: get_remaining performs the same refill
computation as consume without consuming anything. -/
def TokenBucket.get_remaining (b : TokenBucket) (now : ℚ) : ℚ :=
  (b.refill now).tokens

/-- Claim C1: consume(n) refills lazily (elapsed times refill_rate, capped at
capacity, last_refill updated), then subtracts n and reports allowed exactly
when at least n tokens are available; a denied consume leaves the
remaining-token count exactly as it was. -/
theorem token_bucket_consume_spec (b : TokenBucket) (n now : ℚ) (hn : 0 ≤ n) :
    ((b.consume n now).1 = true ↔ n ≤ b.get_remaining now) ∧
    ((b.consume n now).1 = true →
      ((b.consume n now).2).get_remaining now = b.get_remaining now - n) ∧
    ((b.consume n now).1 = false →
      ((b.consume n now).2).get_remaining now = b.get_remaining now ∧
      ((b.consume n now).2).tokens = (b.refill now).tokens) ∧
    ((b.consume n now).2).last_refill = now := by
  have hcap : (b.refill now).tokens ≤ b.capacity := min_le_left _ _
  by_cases hle : n ≤ (b.refill now).tokens
  · have hc : b.consume n now =
        (true, { b.refill now with tokens := (b.refill now).tokens - n }) := by
      simp [TokenBucket.consume, hle]
    rw [hc]
    refine ⟨iff_of_true rfl hle, ?_, by simp, rfl⟩
    intro _
    show ({ b.refill now with
      tokens := (b.refill now).tokens - n } : TokenBucket).get_remaining now =
        b.get_remaining now - n
    unfold TokenBucket.get_remaining TokenBucket.refill
    simp only [sub_self, zero_mul, add_zero]
    exact min_eq_right (le_trans (sub_le_self _ hn) hcap)
  · have hc : b.consume n now = (false, b.refill now) := by
      simp [TokenBucket.consume, hle]
    rw [hc]
    refine ⟨iff_of_false (by simp) hle, by simp, ?_, rfl⟩
    intro _
    constructor
    · show (b.refill now).get_remaining now = b.get_remaining now
      unfold TokenBucket.get_remaining TokenBucket.refill
      simp only [sub_self, zero_mul, add_zero]
      exact min_eq_right hcap
    · rfl

/-- Witness for token_bucket_consume_spec: a full bucket with capacity 10
grants a request for 3 tokens. -/
theorem token_bucket_consume_spec_witness :
    ((⟨10, 10, 0, 1⟩ : TokenBucket).consume 3 0).1 = true := by
  have h := (token_bucket_consume_spec ⟨10, 10, 0, 1⟩ 3 0 (by norm_num)).1
  refine h.mpr ?_
  norm_num [TokenBucket.get_remaining, TokenBucket.refill]

/-- Upstream attempt outcomes as seen by the retry loop in
_upstream_search_with_retry: a successful payload, an HTTP status error, a
timeout, a connection-level request error, or some other exception (which no
except clause of the loop catches). -/
inductive UpstreamOutcome where
  | ok (data : String)
  | httpStatus (code : ℕ)
  | timeout
  | requestError
  | otherError
deriving DecidableEq, Repr

/-- Embedding of _is_retryable_upstream_status. -/
def is_retryable_upstream_status (code : ℕ) : Bool :=
  code == 429 || code == 500 || code == 502 || code == 503 || code == 504

/-- Which failed outcomes the retry loop treats as retryable: HTTP status
errors with a retryable status, timeouts and request errors; success is not
a failure and other exceptions are not caught at all. -/
def retryableOutcome : UpstreamOutcome → Bool
  | .ok _ => false
  | .httpStatus code => is_retryable_upstream_status code
  | .timeout => true
  | .requestError => true
  | .otherError => false

/-- Embedding of _http_error_type_for_upstream_status. -/
def http_error_type_for_upstream_status (status_code : ℕ) : String :=
  if status_code = 429 then "upstream_rate_limit"
  else if 500 ≤ status_code ∧ status_code < 600 then "upstream_server_error"
  else "http_error"

/-- Observable events of one run of the retry loop: an upstream call for a
given attempt number, a backoff sleep, and a retry-token consumption with
its grant result (_try_consume_retry_token). -/
inductive RetryEvent where
  | call (attempt : ℕ)
  | sleep
  | consumeToken (granted : Bool)
deriving DecidableEq, Repr

/-- One failure step of the retry loop body (shared by the HTTPStatusError,
TimeoutException and RequestError handlers and, degenerately, by uncaught
exceptions, for which the retry condition is false): if the outcome is
retryable and the attempt count is below max_attempts, the loop sleeps for
the backoff delay and then tries to consume one extra rate-limit token —
continuing with the next attempt when granted and re-raising the original
failure when denied; otherwise the failure is re-raised at once. -/
def retryFailStep (e : UpstreamOutcome) (attempt max_attempts : ℕ)
    (granted : Bool) (rec : List RetryEvent × Except UpstreamOutcome String) :
    List RetryEvent × Except UpstreamOutcome String :=
  if retryableOutcome e && decide (attempt < max_attempts) then
    if granted then
      (.call attempt :: .sleep :: .consumeToken true :: rec.1, rec.2)
    else
      ([.call attempt, .sleep, .consumeToken false], .error e)
  else
    ([.call attempt], .error e)

/-- Fuelled embedding of the attempt loop of _upstream_search_with_retry,
starting at the given attempt number.  The fuel is an upper bound on the
remaining attempts; the zero-fuel case is unreachable from the entry point
(it mirrors the dead fallthrough after the loop that raises a RuntimeError). -/
def retryAux (outcomes : ℕ → UpstreamOutcome) (grants : ℕ → Bool)
    (max_attempts : ℕ) : ℕ → ℕ → List RetryEvent × Except UpstreamOutcome String
  | _, 0 => ([], .error .otherError)
  | attempt, fuel + 1 =>
    match outcomes attempt with
    | .ok d => ([.call attempt], .ok d)
    | .httpStatus code =>
      retryFailStep (.httpStatus code) attempt max_attempts (grants attempt)
        (retryAux outcomes grants max_attempts (attempt + 1) fuel)
    | .timeout =>
      retryFailStep .timeout attempt max_attempts (grants attempt)
        (retryAux outcomes grants max_attempts (attempt + 1) fuel)
    | .requestError =>
      retryFailStep .requestError attempt max_attempts (grants attempt)
        (retryAux outcomes grants max_attempts (attempt + 1) fuel)
    | .otherError =>
      retryFailStep .otherError attempt max_attempts (grants attempt)
        (retryAux outcomes grants max_attempts (attempt + 1) fuel)

/-- Embedding of _upstream_search_with_retry: run the attempt loop from
attempt 1 with max_attempts as both the bound and the fuel.  The outcomes
argument gives the collaborator behaviour of client.search per attempt and
grants gives the rate limiter's answer to the extra retry-token request per
attempt. -/
def upstream_search_with_retry (outcomes : ℕ → UpstreamOutcome)
    (grants : ℕ → Bool) (max_attempts : ℕ) :
    List RetryEvent × Except UpstreamOutcome String :=
  retryAux outcomes grants max_attempts 1 max_attempts

/-- Count of upstream calls in a retry trace. -/
def countCalls (evs : List RetryEvent) : ℕ :=
  (evs.filter fun e => match e with | .call _ => true | _ => false).length

/-- Count of backoff sleeps in a retry trace. -/
def countSleeps (evs : List RetryEvent) : ℕ :=
  (evs.filter fun e => match e with | .sleep => true | _ => false).length

/-- Whether an upstream outcome is a raised exception (anything but ok). -/
def isFailureOutcome : UpstreamOutcome → Bool
  | .ok _ => false
  | _ => true

/-- Scanning check that in a retry trace every retry-token consumption
immediately follows a backoff sleep. -/
def consume_follows_sleep : List RetryEvent → Bool
  | [] => true
  | .consumeToken _ :: _ => false
  | .sleep :: .consumeToken _ :: rest => consume_follows_sleep rest
  | _ :: rest => consume_follows_sleep rest

/-- Scanning check that in a retry trace every upstream call except the
first event is immediately preceded by a granted retry-token consumption. -/
def retry_calls_consume : List RetryEvent → Bool
  | x :: y :: rest =>
    (match y with
     | .call _ => (match x with | .consumeToken true => true | _ => false)
     | _ => true) && retry_calls_consume (y :: rest)
  | _ => true

theorem retryAux_ok (o : ℕ → UpstreamOutcome) (g : ℕ → Bool)
    (m attempt fuel : ℕ) (d : String) (h : o attempt = .ok d) :
    retryAux o g m attempt (fuel + 1) = ([.call attempt], .ok d) := by
  unfold retryAux
  rw [h]

theorem retryAux_fail (o : ℕ → UpstreamOutcome) (g : ℕ → Bool)
    (m attempt fuel : ℕ) (e : UpstreamOutcome) (h : o attempt = e)
    (hf : isFailureOutcome e = true) :
    retryAux o g m attempt (fuel + 1) =
      retryFailStep e attempt m (g attempt)
        (retryAux o g m (attempt + 1) fuel) := by
  cases e with
  | ok d => simp [isFailureOutcome] at hf
  | httpStatus code => simp only [retryAux, h]
  | timeout => simp only [retryAux, h]
  | requestError => simp only [retryAux, h]
  | otherError => simp only [retryAux, h]

theorem retryFailStep_cases (e : UpstreamOutcome) (attempt m : ℕ) (g : Bool)
    (rec : List RetryEvent × Except UpstreamOutcome String) :
    (retryableOutcome e = true ∧ attempt < m ∧ g = true ∧
      retryFailStep e attempt m g rec =
        (.call attempt :: .sleep :: .consumeToken true :: rec.1, rec.2)) ∨
    (retryableOutcome e = true ∧ attempt < m ∧ g = false ∧
      retryFailStep e attempt m g rec =
        ([.call attempt, .sleep, .consumeToken false], .error e)) ∨
    ((retryableOutcome e = false ∨ ¬ attempt < m) ∧
      retryFailStep e attempt m g rec = ([.call attempt], .error e)) := by
  by_cases h1 : retryableOutcome e = true
  · by_cases h2 : attempt < m
    · cases hg : g
      · right; left
        refine ⟨h1, h2, rfl, ?_⟩
        unfold retryFailStep
        rw [h1, decide_eq_true h2]
        simp
      · left
        refine ⟨h1, h2, rfl, ?_⟩
        unfold retryFailStep
        rw [h1, decide_eq_true h2]
        simp
    · right; right
      refine ⟨Or.inr h2, ?_⟩
      unfold retryFailStep
      rw [decide_eq_false h2]
      simp
  · right; right
    have h1f : retryableOutcome e = false := by
      revert h1; cases retryableOutcome e <;> simp
    refine ⟨Or.inl h1f, ?_⟩
    unfold retryFailStep
    rw [h1f]
    simp

theorem retryAux_call_ge (o : ℕ → UpstreamOutcome) (g : ℕ → Bool) (m : ℕ) :
    ∀ (fuel attempt a : ℕ),
      RetryEvent.call a ∈ (retryAux o g m attempt fuel).1 → attempt ≤ a := by
  intro fuel
  induction fuel with
  | zero => intro attempt a h; simp [retryAux] at h
  | succ fuel ih =>
    intro attempt a h
    cases he : o attempt with
    | ok d =>
      rw [retryAux_ok o g m attempt fuel d he] at h
      simp at h
      rw [h]
    | httpStatus code =>
      rw [retryAux_fail o g m attempt fuel _ he rfl] at h
      rcases retryFailStep_cases (.httpStatus code) attempt m (g attempt)
          (retryAux o g m (attempt + 1) fuel) with
        ⟨_, _, _, heq⟩ | ⟨_, _, _, heq⟩ | ⟨_, heq⟩ <;> rw [heq] at h <;>
        simp at h
      · rcases h with h | h
        · rw [h]
        · exact le_trans (Nat.le_succ attempt) (ih (attempt + 1) a h)
      · rw [h]
      · rw [h]
    | timeout =>
      rw [retryAux_fail o g m attempt fuel _ he rfl] at h
      rcases retryFailStep_cases .timeout attempt m (g attempt)
          (retryAux o g m (attempt + 1) fuel) with
        ⟨_, _, _, heq⟩ | ⟨_, _, _, heq⟩ | ⟨_, heq⟩ <;> rw [heq] at h <;>
        simp at h
      · rcases h with h | h
        · rw [h]
        · exact le_trans (Nat.le_succ attempt) (ih (attempt + 1) a h)
      · rw [h]
      · rw [h]
    | requestError =>
      rw [retryAux_fail o g m attempt fuel _ he rfl] at h
      rcases retryFailStep_cases .requestError attempt m (g attempt)
          (retryAux o g m (attempt + 1) fuel) with
        ⟨_, _, _, heq⟩ | ⟨_, _, _, heq⟩ | ⟨_, heq⟩ <;> rw [heq] at h <;>
        simp at h
      · rcases h with h | h
        · rw [h]
        · exact le_trans (Nat.le_succ attempt) (ih (attempt + 1) a h)
      · rw [h]
      · rw [h]
    | otherError =>
      rw [retryAux_fail o g m attempt fuel _ he rfl] at h
      rcases retryFailStep_cases .otherError attempt m (g attempt)
          (retryAux o g m (attempt + 1) fuel) with
        ⟨hr, _, _, heq⟩ | ⟨hr, _, _, heq⟩ | ⟨_, heq⟩
      · exact absurd hr (by simp [retryableOutcome])
      · exact absurd hr (by simp [retryableOutcome])
      · rw [heq] at h
        simp at h
        rw [h]

theorem retryAux_head_call (o : ℕ → UpstreamOutcome) (g : ℕ → Bool)
    (m attempt fuel : ℕ) :
    RetryEvent.call attempt ∈ (retryAux o g m attempt (fuel + 1)).1 := by
  cases hfail : isFailureOutcome (o attempt) with
  | false =>
    obtain ⟨d, hd⟩ : ∃ d, o attempt = .ok d := by
      revert hfail; cases o attempt <;> simp [isFailureOutcome]
    rw [retryAux_ok o g m attempt fuel d hd]
    simp
  | true =>
    rw [retryAux_fail o g m attempt fuel (o attempt) rfl hfail]
    rcases retryFailStep_cases (o attempt) attempt m (g attempt)
        (retryAux o g m (attempt + 1) fuel) with
      ⟨_, _, _, heq⟩ | ⟨_, _, _, heq⟩ | ⟨_, heq⟩ <;> rw [heq] <;> simp

theorem call_mem_cons3_iff (x attempt : ℕ) (b : Bool) (l : List RetryEvent)
    (hx : x ≠ attempt) :
    (RetryEvent.call x ∈
      RetryEvent.call attempt :: RetryEvent.sleep ::
        RetryEvent.consumeToken b :: l) ↔ RetryEvent.call x ∈ l := by
  simp [hx]

/-- Core characterization of the retry loop: the (a+1)-th upstream call
happens exactly when the a-th call happened, its outcome was a retryable
failure, the attempt bound was not yet reached, and the extra retry token
was granted. -/
theorem retryAux_call_succ_iff (o : ℕ → UpstreamOutcome) (g : ℕ → Bool)
    (m : ℕ) :
    ∀ (fuel attempt : ℕ), attempt + fuel = m + 1 → ∀ a, attempt ≤ a →
      (RetryEvent.call (a + 1) ∈ (retryAux o g m attempt fuel).1 ↔
       (RetryEvent.call a ∈ (retryAux o g m attempt fuel).1 ∧
        retryableOutcome (o a) = true ∧ a < m ∧ g a = true)) := by
  intro fuel
  induction fuel with
  | zero => intro attempt h a ha; simp [retryAux]
  | succ fuel ih =>
    intro attempt h a ha
    cases hfail : isFailureOutcome (o attempt) with
    | false =>
      obtain ⟨d, hd⟩ : ∃ d, o attempt = .ok d := by
        revert hfail; cases o attempt <;> simp [isFailureOutcome]
      rw [retryAux_ok o g m attempt fuel d hd]
      constructor
      · intro hmem; simp at hmem; omega
      · rintro ⟨h1, h2, _⟩
        simp at h1
        rw [h1, hd] at h2
        simp [retryableOutcome] at h2
    | true =>
      rw [retryAux_fail o g m attempt fuel (o attempt) rfl hfail]
      rcases retryFailStep_cases (o attempt) attempt m (g attempt)
          (retryAux o g m (attempt + 1) fuel) with
        ⟨hr, hm, hg, heq⟩ | ⟨hr, hm, hg, heq⟩ | ⟨hst, heq⟩
      · rw [heq]
        rcases Nat.eq_or_lt_of_le ha with haa | haa
        · subst haa
          have hrest : RetryEvent.call (attempt + 1) ∈
              (retryAux o g m (attempt + 1) fuel).1 := by
            obtain ⟨f2, rfl⟩ : ∃ f2, fuel = f2 + 1 := ⟨fuel - 1, by omega⟩
            exact retryAux_head_call o g m (attempt + 1) f2
          refine iff_of_true ?_ ⟨List.mem_cons_self _ _, hr, hm, hg⟩
          exact List.mem_cons_of_mem _ (List.mem_cons_of_mem _
            (List.mem_cons_of_mem _ hrest))
        · have hne1 : a + 1 ≠ attempt := by omega
          have hne2 : a ≠ attempt := by omega
          rw [call_mem_cons3_iff _ _ _ _ hne1, call_mem_cons3_iff _ _ _ _ hne2]
          exact ih (attempt + 1) (by omega) a (by omega)
      · rw [heq]
        constructor
        · intro hmem; simp at hmem; omega
        · rintro ⟨h1, _, _, hgx⟩
          simp at h1
          rw [h1] at hgx
          rw [hg] at hgx
          exact absurd hgx (by simp)
      · rw [heq]
        constructor
        · intro hmem; simp at hmem; omega
        · rintro ⟨h1, h2, h3, _⟩
          simp at h1
          subst h1
          rcases hst with hst | hst
          · rw [hst] at h2; exact absurd h2 (by simp)
          · exact absurd h3 hst

theorem retry_stop_first (o : ℕ → UpstreamOutcome) (g : ℕ → Bool) (m : ℕ)
    (hm : 1 ≤ m) (e : UpstreamOutcome) (h1 : o 1 = e)
    (hf : isFailureOutcome e = true) (hnr : retryableOutcome e = false) :
    upstream_search_with_retry o g m = ([.call 1], .error e) := by
  unfold upstream_search_with_retry
  obtain ⟨f, rfl⟩ : ∃ f, m = f + 1 := ⟨m - 1, by omega⟩
  rw [retryAux_fail o g (f + 1) 1 f e h1 hf]
  rcases retryFailStep_cases e 1 (f + 1) (g 1) (retryAux o g (f + 1) 2 f) with
    ⟨hr, _, _, _⟩ | ⟨hr, _, _, _⟩ | ⟨_, heq⟩
  · rw [hnr] at hr; exact absurd hr (by simp)
  · rw [hnr] at hr; exact absurd hr (by simp)
  · exact heq

theorem retry_two_calls (o : ℕ → UpstreamOutcome) (g : ℕ → Bool) (m : ℕ)
    (h2m : 2 ≤ m) (e : UpstreamOutcome) (d : String) (h1 : o 1 = e)
    (hf : isFailureOutcome e = true) (hr : retryableOutcome e = true)
    (hg : g 1 = true) (h2 : o 2 = .ok d) :
    upstream_search_with_retry o g m =
      ([.call 1, .sleep, .consumeToken true, .call 2], .ok d) := by
  unfold upstream_search_with_retry
  obtain ⟨f, rfl⟩ : ∃ f, m = f + 2 := ⟨m - 2, by omega⟩
  rw [retryAux_fail o g (f + 2) 1 (f + 1) e h1 hf]
  rcases retryFailStep_cases e 1 (f + 2) (g 1) (retryAux o g (f + 2) 2 (f + 1))
    with ⟨_, _, _, heq⟩ | ⟨_, _, hgf, _⟩ | ⟨hst, _⟩
  · rw [heq, retryAux_ok o g (f + 2) 2 f d h2]
  · rw [hg] at hgf; exact absurd hgf (by simp)
  · rcases hst with hst | hst
    · rw [hr] at hst; exact absurd hst (by simp)
    · exact absurd (by omega) hst

theorem cfs_cons3 (a : ℕ) (b : Bool) (l : List RetryEvent) :
    consume_follows_sleep
      (.call a :: .sleep :: .consumeToken b :: l) = consume_follows_sleep l :=
  rfl

theorem retryAux_consume_follows_sleep (o : ℕ → UpstreamOutcome)
    (g : ℕ → Bool) (m : ℕ) :
    ∀ (fuel attempt : ℕ),
      consume_follows_sleep (retryAux o g m attempt fuel).1 = true := by
  intro fuel
  induction fuel with
  | zero => intro attempt; simp [retryAux, consume_follows_sleep]
  | succ fuel ih =>
    intro attempt
    cases hfail : isFailureOutcome (o attempt) with
    | false =>
      obtain ⟨d, hd⟩ : ∃ d, o attempt = .ok d := by
        revert hfail; cases o attempt <;> simp [isFailureOutcome]
      rw [retryAux_ok o g m attempt fuel d hd]
      rfl
    | true =>
      rw [retryAux_fail o g m attempt fuel (o attempt) rfl hfail]
      rcases retryFailStep_cases (o attempt) attempt m (g attempt)
          (retryAux o g m (attempt + 1) fuel) with
        ⟨_, _, _, heq⟩ | ⟨_, _, _, heq⟩ | ⟨_, heq⟩ <;> rw [heq]
      · rw [show ((RetryEvent.call attempt :: RetryEvent.sleep ::
            RetryEvent.consumeToken true ::
              (retryAux o g m (attempt + 1) fuel).1,
            (retryAux o g m (attempt + 1) fuel).2).1) =
            RetryEvent.call attempt :: RetryEvent.sleep ::
              RetryEvent.consumeToken true ::
              (retryAux o g m (attempt + 1) fuel).1 from rfl]
        rw [cfs_cons3]
        exact ih (attempt + 1)
      · rfl
      · rfl

theorem rcc_cons_cons (x y : RetryEvent) (l : List RetryEvent) :
    retry_calls_consume (x :: y :: l) =
      ((match y with
        | .call _ => (match x with | .consumeToken true => true | _ => false)
        | _ => true) && retry_calls_consume (y :: l)) :=
  rfl

theorem retryAux_retry_calls_consume (o : ℕ → UpstreamOutcome)
    (g : ℕ → Bool) (m : ℕ) :
    ∀ (fuel attempt : ℕ),
      retry_calls_consume (retryAux o g m attempt fuel).1 = true ∧
      ((retryAux o g m attempt fuel).1 = [] ∨
        ∃ x rest, (retryAux o g m attempt fuel).1 = .call x :: rest) := by
  intro fuel
  induction fuel with
  | zero =>
    intro attempt
    constructor
    · simp [retryAux, retry_calls_consume]
    · left; simp [retryAux]
  | succ fuel ih =>
    intro attempt
    cases hfail : isFailureOutcome (o attempt) with
    | false =>
      obtain ⟨d, hd⟩ : ∃ d, o attempt = .ok d := by
        revert hfail; cases o attempt <;> simp [isFailureOutcome]
      rw [retryAux_ok o g m attempt fuel d hd]
      exact ⟨rfl, Or.inr ⟨attempt, [], rfl⟩⟩
    | true =>
      rw [retryAux_fail o g m attempt fuel (o attempt) rfl hfail]
      rcases retryFailStep_cases (o attempt) attempt m (g attempt)
          (retryAux o g m (attempt + 1) fuel) with
        ⟨_, _, _, heq⟩ | ⟨_, _, _, heq⟩ | ⟨_, heq⟩ <;> rw [heq]
      · rcases ih (attempt + 1) with ⟨ihr, ihh⟩
        constructor
        · show retry_calls_consume (RetryEvent.call attempt ::
            RetryEvent.sleep :: RetryEvent.consumeToken true ::
            (retryAux o g m (attempt + 1) fuel).1) = true
          rcases ihh with hnil | ⟨x, rest, hx⟩
          · rw [hnil]
            rfl
          · rw [hx]
            rw [hx] at ihr
            rw [rcc_cons_cons, rcc_cons_cons, rcc_cons_cons]
            simp only [ihr]
            rfl
        · exact Or.inr ⟨attempt, _, rfl⟩
      · exact ⟨rfl, Or.inr ⟨attempt, _, rfl⟩⟩
      · exact ⟨rfl, Or.inr ⟨attempt, _, rfl⟩⟩

theorem retryAux_denied_ends (o : ℕ → UpstreamOutcome) (g : ℕ → Bool)
    (m : ℕ) :
    ∀ (fuel attempt : ℕ),
      RetryEvent.consumeToken false ∈ (retryAux o g m attempt fuel).1 →
      ∃ p a, (retryAux o g m attempt fuel).1 =
          p ++ [.call a, .sleep, .consumeToken false] ∧
        (retryAux o g m attempt fuel).2 = .error (o a) := by
  intro fuel
  induction fuel with
  | zero => intro attempt h; simp [retryAux] at h
  | succ fuel ih =>
    intro attempt h
    cases hfail : isFailureOutcome (o attempt) with
    | false =>
      obtain ⟨d, hd⟩ : ∃ d, o attempt = .ok d := by
        revert hfail; cases o attempt <;> simp [isFailureOutcome]
      rw [retryAux_ok o g m attempt fuel d hd] at h
      simp at h
    | true =>
      rw [retryAux_fail o g m attempt fuel (o attempt) rfl hfail] at h ⊢
      rcases retryFailStep_cases (o attempt) attempt m (g attempt)
          (retryAux o g m (attempt + 1) fuel) with
        ⟨_, _, _, heq⟩ | ⟨_, _, _, heq⟩ | ⟨_, heq⟩ <;> rw [heq] at h ⊢
      · simp only [List.mem_cons] at h
        rcases h with h | h | h | h
        · exact absurd h (by simp)
        · exact absurd h (by simp)
        · exact absurd h (by simp)
        · rcases ih (attempt + 1) h with ⟨p, a, hp, hres⟩
          refine ⟨.call attempt :: .sleep :: .consumeToken true :: p, a, ?_, hres⟩
          show RetryEvent.call attempt :: RetryEvent.sleep ::
            RetryEvent.consumeToken true ::
            (retryAux o g m (attempt + 1) fuel).1 = _
          rw [hp]
          rfl
      · exact ⟨[], attempt, rfl, rfl⟩
      · simp at h

/-- Counterexample to claim C2 as stated: the retry loop sleeps the backoff
delay BEFORE trying to consume the extra rate-limit token.  In the run with
a retryable 503 on attempt 1, max_attempts 2 and the token denied, the trace
is call, then sleep, then the denied consumption — the sleep did occur even
though the token could not be obtained — and the original failure is then
surfaced. -/
theorem retry_token_order_counterexample :
    (upstream_search_with_retry (fun _ => .httpStatus 503) (fun _ => false)
      2).1 = [.call 1, .sleep, .consumeToken false] ∧
    (upstream_search_with_retry (fun _ => .httpStatus 503) (fun _ => false)
      2).2 = .error (.httpStatus 503) ∧
    retryableOutcome (.httpStatus 503) = true ∧
    RetryEvent.sleep ∈
      (upstream_search_with_retry (fun _ => .httpStatus 503)
        (fun _ => false) 2).1 := by
  refine ⟨by decide, rfl, by decide, by decide⟩

/-- Claim C2 amended: in the retry loop, for every retry of a retryable
upstream failure, one extra rate-limit token is consumed AFTER the backoff
sleep (every token consumption in the trace immediately follows a sleep,
and every upstream call after the first immediately follows a granted token
consumption); when the token cannot be obtained, no further upstream call is
made and the original failure of the attempt whose retry was being prepared
is surfaced — the denied consumption is the final event of the run. -/
theorem retry_token_amended (o : ℕ → UpstreamOutcome) (g : ℕ → Bool)
    (m : ℕ) :
    consume_follows_sleep (upstream_search_with_retry o g m).1 = true ∧
    retry_calls_consume (upstream_search_with_retry o g m).1 = true ∧
    (RetryEvent.consumeToken false ∈ (upstream_search_with_retry o g m).1 →
      ∃ p a, (upstream_search_with_retry o g m).1 =
          p ++ [.call a, .sleep, .consumeToken false] ∧
        (upstream_search_with_retry o g m).2 = .error (o a)) := by
  refine ⟨retryAux_consume_follows_sleep o g m m 1,
    (retryAux_retry_calls_consume o g m m 1).1,
    retryAux_denied_ends o g m m 1⟩

/-- Witness for retry_token_amended: in the concrete denied-token run the
final-event decomposition is produced by the theorem. -/
theorem retry_token_amended_witness :
    ∃ p a,
      (upstream_search_with_retry (fun _ => .httpStatus 503)
        (fun _ => false) 2).1 =
        p ++ [.call a, .sleep, .consumeToken false] ∧
      (upstream_search_with_retry (fun _ => .httpStatus 503)
        (fun _ => false) 2).2 =
        .error ((fun _ => UpstreamOutcome.httpStatus 503) a) :=
  (retry_token_amended (fun _ => .httpStatus 503) (fun _ => false) 2).2.2
    (by decide)

/-- Counterexample to claim C4 as stated: a retryable failure below the
attempt bound is nevertheless NOT retried when the extra rate-limit token is
denied, so "retried exactly when the error is retryable and the attempt
count is below max_attempts" fails on the code: with a 503 on attempt 1,
max_attempts 3 and the token denied, no second upstream call happens. -/
theorem retry_condition_counterexample :
    retryableOutcome (.httpStatus 503) = true ∧
    (1 : ℕ) < 3 ∧
    RetryEvent.call 1 ∈
      (upstream_search_with_retry (fun _ => .httpStatus 503)
        (fun _ => false) 3).1 ∧
    RetryEvent.call 2 ∉
      (upstream_search_with_retry (fun _ => .httpStatus 503)
        (fun _ => false) 3).1 := by
  refine ⟨by decide, by decide, by decide, by decide⟩

/-- Claim C4 amended: a failed upstream call is retried exactly when its
error is retryable — an HTTP status in {429, 500, 502, 503, 504} or a
network-level timeout/connection error — the attempt count is below
max_attempts AND the extra retry token is granted; any non-retryable HTTP
status propagates after exactly 1 upstream call with no backoff sleep, and
a single retryable failure followed by success (with the retry token
granted) yields exactly 2 upstream calls and exactly one backoff sleep. -/
theorem retry_policy_amended (o : ℕ → UpstreamOutcome) (g : ℕ → Bool)
    (m : ℕ) (hm : 1 ≤ m) :
    (∀ a, 1 ≤ a →
      (RetryEvent.call (a + 1) ∈ (upstream_search_with_retry o g m).1 ↔
        (RetryEvent.call a ∈ (upstream_search_with_retry o g m).1 ∧
         retryableOutcome (o a) = true ∧ a < m ∧ g a = true))) ∧
    (∀ code, o 1 = .httpStatus code → is_retryable_upstream_status code = false →
      upstream_search_with_retry o g m = ([.call 1], .error (.httpStatus code)) ∧
      countCalls (upstream_search_with_retry o g m).1 = 1 ∧
      countSleeps (upstream_search_with_retry o g m).1 = 0) ∧
    (∀ e d, o 1 = e → isFailureOutcome e = true → retryableOutcome e = true →
      g 1 = true → o 2 = .ok d → 2 ≤ m →
      countCalls (upstream_search_with_retry o g m).1 = 2 ∧
      countSleeps (upstream_search_with_retry o g m).1 = 1 ∧
      (upstream_search_with_retry o g m).2 = .ok d) := by
  refine ⟨?_, ?_, ?_⟩
  · intro a ha
    exact retryAux_call_succ_iff o g m m 1 (by omega) a ha
  · intro code h1 hnr
    have heq := retry_stop_first o g m hm _ h1 rfl
      (by simp [retryableOutcome, hnr])
    rw [heq]
    exact ⟨rfl, rfl, rfl⟩
  · intro e d h1 hf hr hg h2 h2m
    rw [retry_two_calls o g m h2m e d h1 hf hr hg h2]
    exact ⟨rfl, rfl, rfl⟩

/-- Witness for retry_policy_amended: a concrete run with a 503 on attempt 1
and success on attempt 2 makes exactly 2 calls and 1 sleep. -/
theorem retry_policy_amended_witness :
    countCalls
      ((upstream_search_with_retry
        (fun a => if a = 1 then .httpStatus 503 else .ok "d")
        (fun _ => true) 2).1) = 2 ∧
    countSleeps
      ((upstream_search_with_retry
        (fun a => if a = 1 then .httpStatus 503 else .ok "d")
        (fun _ => true) 2).1) = 1 ∧
    (upstream_search_with_retry
      (fun a => if a = 1 then .httpStatus 503 else .ok "d")
      (fun _ => true) 2).2 = .ok "d" :=
  (retry_policy_amended
    (fun a => if a = 1 then .httpStatus 503 else .ok "d")
    (fun _ => true) 2 (by decide)).2.2 (.httpStatus 503) "d" (by decide)
    (by decide) (by decide) (by decide) (by decide) (by decide)

/-- Python str.isspace on a single character: the Unicode whitespace set
used by str.strip (ASCII whitespace, the C1 separators, NEL, NBSP, OGHAM
space, the U+2000 range, LS, PS, NNBSP, MMSP and IDEOGRAPHIC SPACE). -/
def py_isspace (c : Char) : Bool :=
  c.val == 32 || (9 ≤ c.val && c.val ≤ 13) || (28 ≤ c.val && c.val ≤ 31) ||
  c.val == 0x85 || c.val == 0xA0 || c.val == 0x1680 ||
  (0x2000 ≤ c.val && c.val ≤ 0x200A) || c.val == 0x2028 ||
  c.val == 0x2029 || c.val == 0x202F || c.val == 0x205F || c.val == 0x3000

/-- List-level form of Python str.strip: drop the characters satisfying p
from the front, then from the back. -/
def stripL (p : Char → Bool) (l : List Char) : List Char :=
  ((l.dropWhile p).reverse.dropWhile p).reverse

/-- Embedding of Python str.strip() as used by _normalize_word. -/
def py_strip (s : String) : String :=
  String.mk (stripL py_isspace s.data)

/-- Embedding of _normalize_word: reject the empty string, strip, reject
whitespace-only input, apply Unicode NFC (the nfc parameter stands for
unicodedata.normalize applied with the NFC form), and reject canonicalized
strings longer than 100 characters.  The word-is-None guard of the source
is unrepresentable here since the embedded input type is String. -/
def normalize_word (nfc : String → String) (word : String) :
    Except String String :=
  if word = "" then .error "搜索词不能为空"
  else
    let stripped := py_strip word
    if stripped = "" then .error "搜索词不能只包含空格"
    else
      let normalized := nfc stripped
      if 100 < normalized.length then
        .error ("搜索词过长（最大 100 字符，当前 " ++
          toString normalized.length ++ " 字符）")
      else .ok normalized

theorem dropWhile_head?_false (p : Char → Bool) :
    ∀ (l : List Char) (a : Char),
      (l.dropWhile p).head? = some a → p a = false := by
  intro l
  induction l with
  | nil => intro a h; simp at h
  | cons x t ih =>
    intro a h
    by_cases hx : p x
    · rw [List.dropWhile_cons, if_pos hx] at h
      exact ih a h
    · rw [List.dropWhile_cons, if_neg hx] at h
      simp at h
      rw [← h]
      cases hpx : p x
      · rfl
      · exact absurd hpx hx

theorem dropWhile_eq_self_of_head? (p : Char → Bool) (l : List Char)
    (h : ∀ a, l.head? = some a → p a = false) : l.dropWhile p = l := by
  cases l with
  | nil => rfl
  | cons x t =>
    rw [List.dropWhile_cons, if_neg (by simp [h x rfl])]

theorem dropWhile_getLast? (p : Char → Bool) :
    ∀ (l : List Char), l.dropWhile p ≠ [] →
      (l.dropWhile p).getLast? = l.getLast? := by
  intro l
  induction l with
  | nil => intro h; simp at h
  | cons x t ih =>
    intro h
    by_cases hx : p x
    · rw [List.dropWhile_cons, if_pos hx] at h ⊢
      have htne : t ≠ [] := by
        intro ht; rw [ht] at h; simp at h
      rcases t with _ | ⟨y, t2⟩
      · exact absurd rfl htne
      · rw [ih h, List.getLast?_cons_cons]
    · rw [List.dropWhile_cons, if_neg hx]

/-- Idempotence of the strip operation. -/
theorem stripL_idem (p : Char → Bool) (l : List Char) :
    stripL p (stripL p l) = stripL p l := by
  have h1 : stripL p l = ((l.dropWhile p).reverse.dropWhile p).reverse := rfl
  rcases hB : (l.dropWhile p).reverse.dropWhile p with _ | ⟨b, bt⟩
  · rw [h1, hB]
    simp [stripL]
  · rw [h1, hB]
    have hbp : p b = false :=
      dropWhile_head?_false p (l.dropWhile p).reverse b (by rw [hB]; rfl)
    obtain ⟨a0, ha0⟩ : ∃ a0, (l.dropWhile p).head? = some a0 := by
      rcases hA : l.dropWhile p with _ | ⟨a, t⟩
      · rw [hA] at hB; simp at hB
      · exact ⟨a, rfl⟩
    have ha0p : p a0 = false := dropWhile_head?_false p l a0 ha0
    have hlast : (b :: bt).getLast? = some a0 := by
      have hne : (l.dropWhile p).reverse.dropWhile p ≠ [] := by
        rw [hB]; simp
      have hgl := dropWhile_getLast? p (l.dropWhile p).reverse hne
      rw [hB] at hgl
      rw [hgl, List.getLast?_reverse, ha0]
    unfold stripL
    have hd1 : (b :: bt).reverse.dropWhile p = (b :: bt).reverse := by
      apply dropWhile_eq_self_of_head?
      intro x hx
      rw [List.head?_reverse, hlast] at hx
      simp at hx
      rw [← hx]
      exact ha0p
    rw [hd1, List.reverse_reverse]
    have hd2 : (b :: bt).dropWhile p = b :: bt := by
      rw [List.dropWhile_cons, if_neg (by simp [hbp])]
    rw [hd2]

theorem py_strip_idem (s : String) : py_strip (py_strip s) = py_strip s := by
  unfold py_strip
  rw [show (String.mk (stripL py_isspace s.data)).data =
    stripL py_isspace s.data from rfl]
  rw [stripL_idem]

/-- Claim C8: normalization is idempotent (and, being embedded as a pure
function, deterministic): for every input on which it succeeds, applying it
to its own output returns that output unchanged.  The NFC collaborator is
abstract; the hypotheses record the relevant facts of Unicode NFC
normalization as implemented by unicodedata.normalize: it is idempotent, it
maps strings without leading/trailing whitespace to strings without
leading/trailing whitespace, and it maps nonempty strings to nonempty
strings. -/
theorem normalize_word_idempotent (nfc : String → String)
    (h1 : ∀ s, nfc (nfc s) = nfc s)
    (h2 : ∀ s, py_strip s = s → py_strip (nfc s) = nfc s)
    (h3 : ∀ s, s ≠ "" → nfc s ≠ "")
    (x y : String) (hx : normalize_word nfc x = .ok y) :
    normalize_word nfc y = .ok y := by
  unfold normalize_word at hx
  by_cases hxe : x = ""
  · rw [if_pos hxe] at hx; exact absurd hx (by simp)
  · rw [if_neg hxe] at hx
    by_cases hxs : py_strip x = ""
    · simp only [hxs, if_pos rfl] at hx
      exact absurd hx (by simp)
    · simp only [if_neg hxs] at hx
      by_cases hxl : 100 < (nfc (py_strip x)).length
      · rw [if_pos hxl] at hx
        exact absurd hx (by simp)
      · rw [if_neg hxl] at hx
        simp only [Except.ok.injEq] at hx
        -- y is the canonicalized stripped input
        have hy : y = nfc (py_strip x) := hx.symm
        have hys : py_strip y = y := by
          rw [hy]
          exact h2 (py_strip x) (py_strip_idem x)
        have hyne : y ≠ "" := by
          rw [hy]
          exact h3 (py_strip x) hxs
        have hynfc : nfc y = y := by
          rw [hy]
          exact h1 (py_strip x)
        rw [hx] at hxl
        unfold normalize_word
        rw [if_neg hyne]
        simp only [hys, if_neg hyne, hynfc]
        rw [if_neg hxl]

/-- Witness for normalize_word_idempotent: the identity satisfies the NFC
facts, and the theorem applied to a padded input gives the normalization of
the already-normalized word. -/
theorem normalize_word_idempotent_witness :
    normalize_word id "hello" = .ok "hello" :=
  normalize_word_idempotent id (fun _ => rfl) (fun _ h => h)
    (fun _ h => h) " hello " "hello" rfl

/-- Prefix test on character lists (Python substring matching helper). -/
def isPrefixCL : List Char → List Char → Bool
  | [], _ => true
  | _ :: _, [] => false
  | a :: ps, b :: ss => a == b && isPrefixCL ps ss

/-- Embedding of the Python `in` operator on strings, at the character-list
level: the pattern occurs as a contiguous substring. -/
def containsL (pat : List Char) : List Char → Bool
  | [] => isPrefixCL pat []
  | a :: t => isPrefixCL pat (a :: t) || containsL pat t

/-- Embedding of Python str.replace(old, new, 1) for a nonempty pattern, at
the character-list level: replace the leftmost occurrence only. -/
def replaceFirstL (pat rep : List Char) : List Char → List Char
  | [] => []
  | a :: t =>
    if isPrefixCL pat (a :: t) then rep ++ (a :: t).drop pat.length
    else a :: replaceFirstL pat rep t

/-- String-level wrapper of the Python `in` operator. -/
def pyContains (s pat : String) : Bool :=
  containsL pat.data s.data

/-- String-level wrapper of Python str.replace(old, new, 1) for the nonempty
patterns used by patch_from_cache_flag. -/
def pyReplaceFirst (s pat rep : String) : String :=
  String.mk (replaceFirstL pat.data rep.data s.data)

/-- Embedding of responses.patch_from_cache_flag: patch the from_cache field
of a serialized payload textually, without deserializing. -/
def patch_from_cache_flag (payload_json : String) (from_cache : Bool) :
    String :=
  let desired := if from_cache then "true" else "false"
  if pyContains payload_json "\"from_cache\":" then
    if from_cache then
      if pyContains payload_json "\"from_cache\": true" then payload_json
      else pyReplaceFirst payload_json "\"from_cache\": false"
        "\"from_cache\": true"
    else
      if pyContains payload_json "\"from_cache\": false" then payload_json
      else pyReplaceFirst payload_json "\"from_cache\": true"
        "\"from_cache\": false"
  else
    let marker := "\"success\": true,"
    if pyContains payload_json marker then
      pyReplaceFirst payload_json marker
        (marker ++ " \"from_cache\": " ++ desired ++ ",")
    else payload_json

theorem isPrefixCL_trans :
    ∀ (p1 p2 s : List Char), isPrefixCL p1 p2 = true →
      isPrefixCL p2 s = true → isPrefixCL p1 s = true := by
  intro p1
  induction p1 with
  | nil => intro p2 s _ _; rfl
  | cons a p1t ih =>
    intro p2 s h12 h2s
    cases p2 with
    | nil => simp [isPrefixCL] at h12
    | cons b p2t =>
      cases s with
      | nil => simp [isPrefixCL] at h2s
      | cons c st =>
        simp only [isPrefixCL, Bool.and_eq_true, beq_iff_eq] at h12 h2s ⊢
        exact ⟨h12.1.trans h2s.1, ih p2t st h12.2 h2s.2⟩

theorem containsL_of_pre (p1 p2 : List Char)
    (hp : isPrefixCL p1 p2 = true) :
    ∀ (s : List Char), containsL p2 s = true → containsL p1 s = true := by
  intro s
  induction s with
  | nil =>
    intro h
    simp only [containsL] at h ⊢
    exact isPrefixCL_trans p1 p2 [] hp h
  | cons a t ih =>
    intro h
    simp only [containsL, Bool.or_eq_true] at h ⊢
    rcases h with h | h
    · exact Or.inl (isPrefixCL_trans p1 p2 (a :: t) hp h)
    · exact Or.inr (ih h)

/-- Claim C10: on a cache hit the pipeline patches the cached response
textually; for every cached string that contains the substring
from_cache-colon-false and does not contain from_cache-colon-true, the
patch equals replacing the first occurrence of the former by the latter.
The second conjunct shows the necessity of the claim's precondition: on a
string whose earlier-serialized content contains the substring, the
replacement hits that earlier occurrence and a from_cache-colon-false
occurrence survives in the output, so the result is not the cached response
with only the top-level field flipped. -/
theorem patch_from_cache_flag_spec :
    (∀ s : String,
      pyContains s "\"from_cache\": false" = true →
      pyContains s "\"from_cache\": true" = false →
      patch_from_cache_flag s true =
        pyReplaceFirst s "\"from_cache\": false" "\"from_cache\": true") ∧
    (patch_from_cache_flag
        "\"results\": [\"\"from_cache\": false\"], \"from_cache\": false"
        true =
      "\"results\": [\"\"from_cache\": true\"], \"from_cache\": false" ∧
     pyContains
       (patch_from_cache_flag
         "\"results\": [\"\"from_cache\": false\"], \"from_cache\": false"
         true)
       "\"from_cache\": false" = true) := by
  refine ⟨?_, by decide, by decide⟩
  intro s h1 h2
  have hc0 : pyContains s "\"from_cache\":" = true :=
    containsL_of_pre _ _ (by decide) _ h1
  unfold patch_from_cache_flag
  rw [if_pos hc0, if_pos rfl, if_neg (by rw [h2]; exact Bool.false_ne_true)]

/-- Witness for patch_from_cache_flag_spec: a concrete canonical success
payload is patched by replacing its first from_cache-colon-false. -/
theorem patch_from_cache_flag_spec_witness :
    patch_from_cache_flag "\"success\": true, \"from_cache\": false" true =
      pyReplaceFirst "\"success\": true, \"from_cache\": false"
        "\"from_cache\": false" "\"from_cache\": true" :=
  patch_from_cache_flag_spec.1 "\"success\": true, \"from_cache\": false"
    (by decide) (by decide)

/-- Structured view of the response items assembled by responses.py: the
fields of build_success_item, build_error_item and build_cached_json_item.
Absent fields are none.  Parsed upstream entries are opaque strings. -/
structure ResponseItem where
  word : String
  success : Bool
  count : Option ℕ
  results : Option (List String)
  error : Option String
  error_type : Option String
  details : Option String
  from_cache : Bool
  deduped : Bool
  source_word : String
  cached_json : Option String
  dict_type : Option String
deriving DecidableEq, Repr

/-- Embedding of responses.build_success_item. -/
def build_success_item (word dict_type : String) (results : List String)
    (from_cache deduped : Bool) (source_word : String)
    (include_dict_type : Bool) : ResponseItem :=
  { word := word, success := true, count := some results.length,
    results := some results, error := none, error_type := none,
    details := none, from_cache := from_cache, deduped := deduped,
    source_word := source_word, cached_json := none,
    dict_type := if include_dict_type then some dict_type else none }

/-- Embedding of responses.build_error_item. -/
def build_error_item (word dict_type error error_type details : String)
    (from_cache deduped : Bool) (source_word : String)
    (include_dict_type : Bool) : ResponseItem :=
  { word := word, success := false, count := none, results := none,
    error := some error, error_type := some error_type,
    details := some details, from_cache := from_cache, deduped := deduped,
    source_word := source_word, cached_json := none,
    dict_type := if include_dict_type then some dict_type else none }

/-- Embedding of responses.build_cached_json_item. -/
def build_cached_json_item (word dict_type cached_json : String)
    (deduped : Bool) (source_word : String) (include_dict_type : Bool) :
    ResponseItem :=
  { word := word, success := true, count := none, results := none,
    error := none, error_type := none, details := none, from_cache := true,
    deduped := deduped, source_word := source_word,
    cached_json := some cached_json,
    dict_type := if include_dict_type then some dict_type else none }

/-- Outcome of the parser collaborator parse_search_results: a list of
opaque parsed entries, a KeyError/ValueError/TypeError (caught as
parse_error), or some other exception (caught as unknown). -/
inductive ParseOutcome where
  | ok (results : List String)
  | typeErr
  | otherExc
deriving DecidableEq, Repr

/-- Error classification of a raised upstream outcome, following the order
of the except clauses of _search_word_impl: TimeoutException maps to
timeout, HTTPStatusError to _http_error_type_for_upstream_status,
RequestError to network_error, anything else to unknown. -/
def error_type_for_upstream : UpstreamOutcome → String
  | .httpStatus code => http_error_type_for_upstream_status code
  | .timeout => "timeout"
  | .requestError => "network_error"
  | _ => "unknown"

/-- Embedding of the error_messages table and its per-branch defaults in the
HTTPStatusError handler of _search_word_impl. -/
def upstream_error_message (error_type : String) (status_code : ℕ) : String :=
  if error_type = "upstream_rate_limit" then "上游请求过于频繁，请稍后重试"
  else if error_type = "upstream_server_error" then
    (if status_code = 500 then "服务器内部错误"
     else if status_code = 502 then "网关错误"
     else if status_code = 503 then "服务暂时不可用"
     else "上游服务错误（HTTP " ++ toString status_code ++ "）")
  else
    (if status_code = 400 then "请求参数错误"
     else if status_code = 404 then "未找到请求的资源"
     else if status_code = 429 then "上游请求过于频繁，请稍后重试"
     else if status_code = 500 then "服务器内部错误"
     else if status_code = 502 then "网关错误"
     else if status_code = 503 then "服务暂时不可用"
     else "HTTP 错误 " ++ toString status_code)

/-- Environment of one _search_word_impl run: the collaborators (NFC, md5,
the JSON serializer, the parser, the upstream outcomes per attempt and the
retry-token grants) and the shared state (cache, token bucket) with the
request time.  The retry loop's own token consumptions are abstracted by
the grants function, as in the retry model. -/
structure SearchEnv where
  nfc : String → String
  md5 : String → String
  dumps : ResponseItem → String
  parse : String → ParseOutcome
  cache : TTLCache ℚ
  bucket : TokenBucket
  now : ℚ
  outcomes : ℕ → UpstreamOutcome
  grants : ℕ → Bool
  max_attempts : ℕ
  cache_ttl : ℚ
  cache_negative_ttl : ℚ

/-- Embedding of _cache_ttl_for_results: negative caching uses the short
TTL when the result list is empty. -/
def cache_ttl_for_results (env : SearchEnv) (results : List String) : ℚ :=
  if results.length = 0 then env.cache_negative_ttl else env.cache_ttl

/-- Response of the single-word pipeline: a serialized JSON payload on the
success paths (cache-hit patching or fresh serialization) or a structured
error item that the source serializes with dumps_json. -/
inductive SearchResponse where
  | json (payload : String)
  | errorItem (item : ResponseItem)
deriving DecidableEq, Repr

/-- Output of one _search_word_impl run: the response and the updated
shared state. -/
structure SearchOutput where
  response : SearchResponse
  cache : TTLCache ℚ
  bucket : TokenBucket

/-- Handler outcome for a raised upstream failure in _search_word_impl
(the except chain after the fetch): an error item classified by the
exception class, with the shared state unchanged except the consumed
bucket. -/
def search_word_upstream_error (cache1 : TTLCache ℚ) (bucket1 : TokenBucket)
    (nw dict_type : String) (e : UpstreamOutcome) : SearchOutput :=
  match e with
  | .httpStatus code =>
    { response := .errorItem (build_error_item nw dict_type
        (upstream_error_message
          (http_error_type_for_upstream_status code) code)
        (http_error_type_for_upstream_status code)
        ("上游返回 HTTP " ++ toString code) false false nw true),
      cache := cache1, bucket := bucket1 }
  | .timeout =>
    { response := .errorItem (build_error_item nw dict_type "请求超时"
        "timeout" "API 请求超时，请稍后重试" false false nw true),
      cache := cache1, bucket := bucket1 }
  | .requestError =>
    { response := .errorItem (build_error_item nw dict_type "网络连接错误"
        "network_error" "无法连接到 Naver API，请检查网络连接" false false
        nw true),
      cache := cache1, bucket := bucket1 }
  | _ =>
    { response := .errorItem (build_error_item nw dict_type "未知错误"
        "unknown" "" false false nw true),
      cache := cache1, bucket := bucket1 }

/-- Parse step of _search_word_impl: on success, build and cache the
canonical payload (with the negative TTL on an empty result list); a
KeyError/ValueError/TypeError becomes a parse_error item and any other
parser exception an unknown item. -/
def search_word_parse_step (env : SearchEnv) (cache1 : TTLCache ℚ)
    (bucket1 : TokenBucket) (nw dict_type : String) (po : ParseOutcome) :
    SearchOutput :=
  match po with
  | .ok results =>
    let item := build_success_item nw dict_type results false false nw true
    let result_json := env.dumps item
    { response := .json result_json,
      cache := cache1.set env.md5 nw dict_type result_json
        (some (cache_ttl_for_results env results)) env.now,
      bucket := bucket1 }
  | .typeErr =>
    { response := .errorItem (build_error_item nw dict_type "响应解析失败"
        "parse_error" "API 返回的数据格式异常，可能是 API 接口发生了变化"
        false false nw true),
      cache := cache1, bucket := bucket1 }
  | .otherExc =>
    { response := .errorItem (build_error_item nw dict_type "未知错误"
        "unknown" "" false false nw true),
      cache := cache1, bucket := bucket1 }

/-- Cache-miss path of _search_word_impl: charge one rate-limit token (a
denial returns a rate_limit error carrying the remaining quota and touches
no upstream), then run the retried fetch and hand over to the parse step or
the upstream-error handler. -/
def search_word_miss (env : SearchEnv) (cache1 : TTLCache ℚ)
    (nw dict_type : String) : SearchOutput :=
  let consumed := env.bucket.consume 1 env.now
  if consumed.1 = false then
    { response := .errorItem (build_error_item nw dict_type "请求频率超限"
        "rate_limit"
        ("请求过于频繁，请稍后重试。当前剩余配额: " ++
          toString (consumed.2.get_remaining env.now))
        false false nw true),
      cache := cache1, bucket := consumed.2 }
  else
    match (upstream_search_with_retry env.outcomes env.grants
        env.max_attempts).2 with
    | .ok data => search_word_parse_step env cache1 consumed.2 nw dict_type
        (env.parse data)
    | .error e => search_word_upstream_error cache1 consumed.2 nw dict_type e

/-- Embedding of _search_word_impl: normalize, consult the cache (a truthy
hit is patched and returned), otherwise run the cache-miss path; every
failure is converted to a structured error item via the except chain. -/
def search_word_impl (env : SearchEnv) (word : String) (dict_type : String) :
    SearchOutput :=
  match normalize_word env.nfc word with
  | .error msg =>
    { response := .errorItem (build_error_item word dict_type "输入验证失败"
        "validation" msg false false word true),
      cache := env.cache, bucket := env.bucket }
  | .ok nw =>
    let got := env.cache.get env.md5 nw dict_type env.now
    match got.1 with
    | some v =>
      if v = "" then
        -- a falsy cached value is treated as a miss by the truthiness test
        -- of the source; it cannot occur for stored payloads
        search_word_miss env got.2 nw dict_type
      else
        { response := .json (patch_from_cache_flag v true),
          cache := got.2, bucket := env.bucket }
    | none => search_word_miss env got.2 nw dict_type

/-- The closed error-type taxonomy of the external interface. -/
def allowed_error_types : List String :=
  ["validation", "timeout", "http_error", "upstream_rate_limit",
   "upstream_server_error", "network_error", "parse_error", "rate_limit",
   "unknown"]

theorem http_error_type_mem (code : ℕ) :
    http_error_type_for_upstream_status code ∈ allowed_error_types := by
  unfold http_error_type_for_upstream_status allowed_error_types
  by_cases h1 : code = 429
  · simp [h1]
  · rw [if_neg h1]
    by_cases h2 : 500 ≤ code ∧ code < 600
    · simp [h2]
    · simp [h2]

/-- Structured-response predicate used by the taxonomy claim: the output is
a serialized payload, or an unsuccessful error item whose error_type is in
the closed taxonomy. -/
def taxonomy_ok (out : SearchOutput) : Prop :=
  (∃ payload, out.response = .json payload) ∨
  (∃ item, out.response = .errorItem item ∧ item.success = false ∧
    ∃ et, item.error_type = some et ∧ et ∈ allowed_error_types)

theorem search_word_upstream_error_taxonomy (cache1 : TTLCache ℚ)
    (bucket1 : TokenBucket) (nw dict_type : String) (e : UpstreamOutcome) :
    taxonomy_ok (search_word_upstream_error cache1 bucket1 nw dict_type e) := by
  cases e with
  | ok d =>
    exact Or.inr ⟨_, rfl, rfl, "unknown", rfl, by simp [allowed_error_types]⟩
  | httpStatus code =>
    exact Or.inr ⟨_, rfl, rfl, http_error_type_for_upstream_status code, rfl,
      http_error_type_mem code⟩
  | timeout =>
    exact Or.inr ⟨_, rfl, rfl, "timeout", rfl, by simp [allowed_error_types]⟩
  | requestError =>
    exact Or.inr ⟨_, rfl, rfl, "network_error", rfl,
      by simp [allowed_error_types]⟩
  | otherError =>
    exact Or.inr ⟨_, rfl, rfl, "unknown", rfl, by simp [allowed_error_types]⟩

theorem search_word_parse_step_taxonomy (env : SearchEnv)
    (cache1 : TTLCache ℚ) (bucket1 : TokenBucket) (nw dict_type : String)
    (po : ParseOutcome) :
    taxonomy_ok (search_word_parse_step env cache1 bucket1 nw dict_type po) := by
  cases po with
  | ok results => exact Or.inl ⟨_, rfl⟩
  | typeErr =>
    exact Or.inr ⟨_, rfl, rfl, "parse_error", rfl,
      by simp [allowed_error_types]⟩
  | otherExc =>
    exact Or.inr ⟨_, rfl, rfl, "unknown", rfl, by simp [allowed_error_types]⟩

theorem search_word_miss_taxonomy (env : SearchEnv) (cache1 : TTLCache ℚ)
    (nw dict_type : String) :
    taxonomy_ok (search_word_miss env cache1 nw dict_type) := by
  unfold search_word_miss
  by_cases hcons : (env.bucket.consume 1 env.now).1 = false
  · rw [if_pos hcons]
    exact Or.inr ⟨_, rfl, rfl, "rate_limit", rfl,
      by simp [allowed_error_types]⟩
  · rw [if_neg hcons]
    cases hr : (upstream_search_with_retry env.outcomes env.grants
        env.max_attempts).2 with
    | ok data =>
      exact search_word_parse_step_taxonomy env cache1 _ nw dict_type
        (env.parse data)
    | error e =>
      exact search_word_upstream_error_taxonomy cache1 _ nw dict_type e

/-- Claim C6: the single-word pipeline is total over every input and every
collaborator behaviour (the embedding returns a SearchOutput for all
environments — no exception reaches the caller), and every failure is
converted to a structured error response whose error_type belongs to the
closed taxonomy {validation, timeout, http_error, upstream_rate_limit,
upstream_server_error, network_error, parse_error, rate_limit, unknown}. -/
theorem search_word_impl_taxonomy (env : SearchEnv)
    (word dict_type : String) :
    taxonomy_ok (search_word_impl env word dict_type) := by
  unfold search_word_impl
  cases hn : normalize_word env.nfc word with
  | error msg =>
    exact Or.inr ⟨_, rfl, rfl, "validation", rfl,
      by simp [allowed_error_types]⟩
  | ok nw =>
    dsimp only
    cases hg : (env.cache.get env.md5 nw dict_type env.now).1 with
    | some v =>
      dsimp only
      by_cases hv : v = ""
      · rw [if_pos hv]
        exact search_word_miss_taxonomy env _ nw dict_type
      · rw [if_neg hv]
        exact Or.inl ⟨_, rfl⟩
    | none => exact search_word_miss_taxonomy env _ nw dict_type

/-- Embedding of miss_indices_by_word.setdefault(normalized_word,
[]).append(idx): an existing word appends the index to its list in place, a
new word is appended with a singleton list. -/
def dict_append (m : List (String × List ℕ)) (k : String) (i : ℕ) :
    List (String × List ℕ) :=
  if dmem m k then
    m.map (fun p => if p.1 = k then (p.1, p.2 ++ [i]) else p)
  else
    m ++ [(k, [i])]

/-- Environment of one _batch_search_words_impl run: collaborators (NFC,
md5, serializer, deserializer for cached payloads, parser, per-word
upstream outcomes and retry grants) and shared state.  The loads_results
and loads_count functions stand for json.loads(cached_json)["results"] and
its optional "count" key. -/
structure BatchEnv where
  nfc : String → String
  md5 : String → String
  dumps : ResponseItem → String
  parse : String → ParseOutcome
  loads_results : String → List String
  loads_count : String → Option ℕ
  cache : TTLCache ℚ
  bucket : TokenBucket
  now : ℚ
  outcomesFor : String → ℕ → UpstreamOutcome
  grantsFor : String → ℕ → Bool
  max_attempts : ℕ
  cache_ttl : ℚ
  cache_negative_ttl : ℚ
  include_dict_type : Bool

/-- Cache-hit item of the batch loop: either the raw cached JSON wrapped by
build_cached_json_item (return_cached_json mode) or a success item rebuilt
from the deserialized cached payload, with the cached count taking
precedence when present. -/
def batch_hit_item (env : BatchEnv) (dict_type nw v : String)
    (return_cached_json : Bool) : ResponseItem :=
  if return_cached_json then
    build_cached_json_item nw dict_type v false nw env.include_dict_type
  else
    let cached_results := env.loads_results v
    let item := build_success_item nw dict_type cached_results true false nw
      env.include_dict_type
    match env.loads_count v with
    | some c => { item with count := some c }
    | none => item

/-- Embedding of fetch_one of _batch_search_words_impl: run the retried
upstream fetch for one unique miss word and convert the outcome to a
response item through the same except chain as the single-word pipeline.
The per-fetch cache write of the source is not modelled: the fetches run
concurrently under a semaphore and their interleaved cache writes are
outside the deterministic embedding (and outside every claim).  Every
branch builds its item with word := w. -/
def fetch_one (env : BatchEnv) (dict_type w : String) : ResponseItem :=
  match (upstream_search_with_retry (env.outcomesFor w) (env.grantsFor w)
      env.max_attempts).2 with
  | .ok data =>
    match env.parse data with
    | .ok parsed =>
      build_success_item w dict_type parsed false false w
        env.include_dict_type
    | .typeErr =>
      build_error_item w dict_type "响应解析失败" "parse_error"
        "API 返回的数据格式异常，可能是 API 接口发生了变化" false false w
        env.include_dict_type
    | .otherExc =>
      build_error_item w dict_type "未知错误" "unknown" "" false false w
        env.include_dict_type
  | .error e =>
    match e with
    | .httpStatus code =>
      build_error_item w dict_type
        (upstream_error_message (http_error_type_for_upstream_status code)
          code)
        (http_error_type_for_upstream_status code)
        ("上游返回 HTTP " ++ toString code) false false w
        env.include_dict_type
    | .timeout =>
      build_error_item w dict_type "请求超时" "timeout"
        "API 请求超时，请稍后重试" false false w env.include_dict_type
    | .requestError =>
      build_error_item w dict_type "网络连接错误" "network_error"
        "无法连接到 Naver API，请检查网络连接" false false w
        env.include_dict_type
    | _ =>
      build_error_item w dict_type "未知错误" "unknown" "" false false w
        env.include_dict_type

theorem fetch_one_word (env : BatchEnv) (dict_type w : String) :
    (fetch_one env dict_type w).word = w := by
  unfold fetch_one
  cases hr : (upstream_search_with_retry (env.outcomesFor w)
      (env.grantsFor w) env.max_attempts).2 with
  | ok d =>
    dsimp only
    cases hp : env.parse d <;> rfl
  | error e =>
    dsimp only
    cases e <;> rfl

/-- Embedding of the dict comprehension fetched_by_word =
(item["word"], item): later duplicates would overwrite, as in Python. -/
def build_fetched_by_word (items : List ResponseItem) :
    List (String × ResponseItem) :=
  items.foldl (fun d it => dinsert d it.word it) []

/-- Inhabitant used for the unreachable missing-key lookup (in Python a
KeyError, impossible since every fetched item carries its own word). -/
def default_item : ResponseItem :=
  { word := "", success := false, count := none, results := none,
    error := none, error_type := none, details := none, from_cache := false,
    deduped := false, source_word := "", cached_json := none,
    dict_type := none }

/-- Backfill of one dedup entry: write a copy of the fetched item into every
input position of the entry, marking deduped on all but the first position
and stamping source_word with the shared normalized word. -/
def backfill_entry (item : ResponseItem) (w : String) (idxs : List ℕ)
    (slots : List (Option ResponseItem)) : List (Option ResponseItem) :=
  match idxs with
  | [] => slots
  | i0 :: _ =>
    idxs.foldl
      (fun sl i =>
        sl.set i
          (some { item with deduped := decide (i ≠ i0), source_word := w }))
      slots

/-- Backfill loop over the dedup map, looking each word up in the fetched
dictionary. -/
def backfill (fetched : List (String × ResponseItem))
    (m : List (String × List ℕ)) (slots : List (Option ResponseItem)) :
    List (Option ResponseItem) :=
  m.foldl
    (fun sl e =>
      backfill_entry ((dlookup fetched e.1).getD default_item) e.1 e.2 sl)
    slots

/-- Rate-limited fill of one dedup entry (the denial branch): every position
of the entry receives a rate_limit error item with the same deduped and
source_word marking as the backfill. -/
def rate_limit_entry (env : BatchEnv) (dict_type : String) (remaining : ℚ)
    (w : String) (idxs : List ℕ) (slots : List (Option ResponseItem)) :
    List (Option ResponseItem) :=
  match idxs with
  | [] => slots
  | i0 :: _ =>
    idxs.foldl
      (fun sl i =>
        sl.set i (some (build_error_item w dict_type "请求频率超限"
          "rate_limit"
          ("请求过于频繁，请稍后重试。当前剩余配额: " ++ toString remaining)
          false (decide (i ≠ i0)) w env.include_dict_type)))
      slots

/-- Rate-limited fill over the whole dedup map. -/
def rate_limit_fill (env : BatchEnv) (dict_type : String) (remaining : ℚ)
    (m : List (String × List ℕ)) (slots : List (Option ResponseItem)) :
    List (Option ResponseItem) :=
  m.foldl (fun sl e => rate_limit_entry env dict_type remaining e.1 e.2 sl)
    slots

/-- Phase 1 of _batch_search_words_impl (the normalize-and-cache loop),
written as an accumulating recursion: the source preallocates the result
list and assigns results[idx] once per iteration, which is the same as
appending one slot per input position.  A miss leaves the slot empty (the
preallocated placeholder dict) and records the position under its
normalized word in the dedup map. -/
def phase1_go (env : BatchEnv) (dict_type : String)
    (return_cached_json : Bool) :
    List String → ℕ → List (Option ResponseItem) →
    List (String × List ℕ) → TTLCache ℚ →
    List (Option ResponseItem) × List (String × List ℕ) × TTLCache ℚ
  | [], _, slots, m, c => (slots, m, c)
  | raw :: rest, idx, slots, m, c =>
    match normalize_word env.nfc raw with
    | .error msg =>
      phase1_go env dict_type return_cached_json rest (idx + 1)
        (slots ++ [some (build_error_item raw dict_type "输入验证失败"
          "validation" msg false false (py_strip raw)
          env.include_dict_type)])
        m c
    | .ok nw =>
      let got := c.get env.md5 nw dict_type env.now
      match got.1 with
      | some v =>
        if v = "" then
          phase1_go env dict_type return_cached_json rest (idx + 1)
            (slots ++ [none]) (dict_append m nw idx) got.2
        else
          phase1_go env dict_type return_cached_json rest (idx + 1)
            (slots ++ [some (batch_hit_item env dict_type nw v
              return_cached_json)])
            m got.2
      | none =>
        phase1_go env dict_type return_cached_json rest (idx + 1)
          (slots ++ [none]) (dict_append m nw idx) got.2

/-- Output of one _batch_search_words_impl run: the per-position items (none
marks a position never filled, impossible after a complete run), the size
of the single rate-limit charge, whether it was granted, the words fetched
upstream, the batch-level validation error if any, and the updated shared
state. -/
structure BatchOutput where
  items : List (Option ResponseItem)
  charged : Option ℕ
  allowed : Bool
  fetched : List String
  top_error : Option String
  cache : TTLCache ℚ
  bucket : TokenBucket

/-- Embedding of _batch_search_words_impl: batch-level validation, the
phase-1 normalize-and-cache loop, the single rate-limit charge of one token
per unique miss word, and either the rate-limit fill or the deduplicated
fan-out with backfill. -/
def batch_search_words_impl (env : BatchEnv) (words : List String)
    (dict_type : String) (return_cached_json : Bool) : BatchOutput :=
  if words.length = 0 then
    { items := [], charged := none, allowed := true, fetched := [],
      top_error := some "validation", cache := env.cache,
      bucket := env.bucket }
  else if 10 < words.length then
    { items := [], charged := none, allowed := true, fetched := [],
      top_error := some "validation", cache := env.cache,
      bucket := env.bucket }
  else
    let p := phase1_go env dict_type return_cached_json words 0 [] []
      env.cache
    let miss_words := p.2.1.map Prod.fst
    if p.2.1.length = 0 then
      { items := p.1, charged := none, allowed := true, fetched := [],
        top_error := none, cache := p.2.2, bucket := env.bucket }
    else
      let consumed := env.bucket.consume (miss_words.length : ℚ) env.now
      if consumed.1 = false then
        { items := rate_limit_fill env dict_type
            (consumed.2.get_remaining env.now) p.2.1 p.1,
          charged := some miss_words.length, allowed := false, fetched := [],
          top_error := none, cache := p.2.2, bucket := consumed.2 }
      else
        { items := backfill
            (build_fetched_by_word
              (miss_words.map (fetch_one env dict_type)))
            p.2.1 p.1,
          charged := some miss_words.length, allowed := true,
          fetched := miss_words, top_error := none, cache := p.2.2,
          bucket := consumed.2 }

theorem dlookup_map_replace {α : Type} (k : String) (v : α) :
    ∀ (d : List (String × α)), dmem d k = true →
      dlookup (d.map (fun p => if p.1 = k then (k, v) else p)) k = some v := by
  intro d
  induction d with
  | nil => intro h; simp [dmem] at h
  | cons p rest ih =>
    intro h
    by_cases hpk : p.1 = k
    · simp only [List.map_cons, if_pos hpk]
      unfold dlookup
      rw [if_pos rfl]
    · simp only [List.map_cons, if_neg hpk]
      unfold dlookup
      rw [if_neg hpk]
      apply ih
      unfold dmem at h ⊢
      simp only [List.any_cons, Bool.or_eq_true, decide_eq_true_eq] at h
      rcases h with h | h
      · exact absurd h hpk
      · exact h

theorem dlookup_append_single_self {α : Type} (k : String) (v : α) :
    ∀ (d : List (String × α)), dmem d k = false →
      dlookup (d ++ [(k, v)]) k = some v := by
  intro d
  induction d with
  | nil => intro _; simp [dlookup]
  | cons p rest ih =>
    intro h
    unfold dmem at h
    simp only [List.any_cons, Bool.or_eq_false_iff, decide_eq_false_iff_not]
      at h
    rw [List.cons_append]
    unfold dlookup
    rw [if_neg h.1]
    exact ih (by unfold dmem; exact h.2)

theorem dlookup_dinsert_self {α : Type} (d : List (String × α)) (k : String)
    (v : α) : dlookup (dinsert d k v) k = some v := by
  unfold dinsert
  by_cases hm : dmem d k
  · rw [if_pos hm]
    exact dlookup_map_replace k v d hm
  · rw [if_neg hm]
    exact dlookup_append_single_self k v d (by revert hm; cases dmem d k <;>
      simp)

theorem dlookup_map_replace_ne {α : Type} (k k2 : String) (v : α)
    (hne : k ≠ k2) :
    ∀ (d : List (String × α)),
      dlookup (d.map (fun p => if p.1 = k then (k, v) else p)) k2 =
        dlookup d k2 := by
  intro d
  induction d with
  | nil => rfl
  | cons p rest ih =>
    by_cases hpk : p.1 = k
    · simp only [List.map_cons, if_pos hpk]
      unfold dlookup
      rw [if_neg hne, if_neg (by rw [hpk]; exact hne)]
      exact ih
    · simp only [List.map_cons, if_neg hpk]
      unfold dlookup
      by_cases hpk2 : p.1 = k2
      · rw [if_pos hpk2, if_pos hpk2]
      · rw [if_neg hpk2, if_neg hpk2]
        exact ih

theorem dlookup_append_single_ne {α : Type} (k k2 : String) (v : α)
    (hne : k ≠ k2) :
    ∀ (d : List (String × α)),
      dlookup (d ++ [(k, v)]) k2 = dlookup d k2 := by
  intro d
  induction d with
  | nil => simp [dlookup, if_neg hne]
  | cons p rest ih =>
    rw [List.cons_append]
    unfold dlookup
    by_cases hpk2 : p.1 = k2
    · rw [if_pos hpk2, if_pos hpk2]
    · rw [if_neg hpk2, if_neg hpk2]
      exact ih

theorem dlookup_dinsert_ne {α : Type} (d : List (String × α)) (k k2 : String)
    (v : α) (hne : k ≠ k2) : dlookup (dinsert d k v) k2 = dlookup d k2 := by
  unfold dinsert
  by_cases hm : dmem d k
  · rw [if_pos hm]
    exact dlookup_map_replace_ne k k2 v hne d
  · rw [if_neg hm]
    exact dlookup_append_single_ne k k2 v hne d

theorem dlookup_fold_insert (f : String → ResponseItem)
    (hword : ∀ w2, (f w2).word = w2) :
    ∀ (ws : List String) (d : List (String × ResponseItem)) (w : String),
      (w ∈ ws ∨ dlookup d w = some (f w)) →
      dlookup (ws.foldl (fun d2 w2 => dinsert d2 (f w2).word (f w2)) d) w =
        some (f w) := by
  intro ws
  induction ws with
  | nil =>
    intro d w h
    rcases h with h | h
    · simp at h
    · exact h
  | cons w0 rest ih =>
    intro d w h
    rw [List.foldl_cons]
    apply ih
    by_cases hww : w ∈ rest
    · exact Or.inl hww
    · right
      rw [hword w0]
      rcases h with h | h
      · rcases List.mem_cons.mp h with h | h
        · rw [h]
          exact dlookup_dinsert_self d w0 (f w0)
        · exact absurd h hww
      · by_cases hw0 : w = w0
        · rw [hw0]
          exact dlookup_dinsert_self d w0 (f w0)
        · rw [dlookup_dinsert_ne d w0 w (f w0) (fun hh => hw0 hh.symm)]
          exact h

/-- Lookup in the fetched-by-word dictionary returns the fetch result of
the looked-up word. -/
theorem dlookup_build_fetched (env : BatchEnv) (dict_type : String)
    (ws : List String) (w : String) (hw : w ∈ ws) :
    dlookup (build_fetched_by_word (ws.map (fetch_one env dict_type))) w =
      some (fetch_one env dict_type w) := by
  unfold build_fetched_by_word
  rw [List.foldl_map]
  exact dlookup_fold_insert (fetch_one env dict_type)
    (fetch_one_word env dict_type) ws [] w (Or.inl hw)

/-- Invariant of the dedup map built by phase 1: distinct keys, nonempty
strictly increasing index lists bounded by the running position counter,
and pairwise-disjoint index lists. -/
def MInv (m : List (String × List ℕ)) (bound : ℕ) : Prop :=
  (m.map Prod.fst).Nodup ∧
  (∀ e ∈ m, e.2 ≠ [] ∧ e.2.Chain' (· < ·) ∧ ∀ i ∈ e.2, i < bound) ∧
  (m.map Prod.snd).Pairwise (fun l1 l2 => ∀ i ∈ l1, i ∉ l2)

theorem MInv_nil (b : ℕ) : MInv [] b :=
  ⟨List.nodup_nil, by simp, List.Pairwise.nil⟩

theorem MInv_mono {m : List (String × List ℕ)} {b b2 : ℕ} (h : MInv m b)
    (hb : b ≤ b2) : MInv m b2 := by
  refine ⟨h.1, ?_, h.2.2⟩
  intro e he
  rcases h.2.1 e he with ⟨h1, h2, h3⟩
  exact ⟨h1, h2, fun i hi => lt_of_lt_of_le (h3 i hi) hb⟩

theorem MInv_dict_append {m : List (String × List ℕ)} {b : ℕ} (k : String)
    (h : MInv m b) : MInv (dict_append m k b) (b + 1) := by
  rcases h with ⟨hkeys, hents, hdisj⟩
  unfold dict_append
  by_cases hm : dmem m k
  · rw [if_pos hm]
    have hfst : (m.map (fun p => if p.1 = k then (p.1, p.2 ++ [b]) else p)).map
        Prod.fst = m.map Prod.fst := by
      rw [List.map_map]
      apply List.map_congr_left
      intro p _
      by_cases hp : p.1 = k <;> simp [hp]
    refine ⟨by rw [hfst]; exact hkeys, ?_, ?_⟩
    · intro e he
      rcases List.mem_map.mp he with ⟨p, hp, hpe⟩
      rcases hents p hp with ⟨h1, h2, h3⟩
      by_cases hpk : p.1 = k
      · rw [if_pos hpk] at hpe
        rw [← hpe]
        refine ⟨by simp, ?_, ?_⟩
        · rw [List.chain'_append]
          refine ⟨h2, List.chain'_singleton b, ?_⟩
          intro x hx y hy
          simp at hy
          rw [← hy]
          exact h3 x (List.mem_of_mem_getLast? hx)
        · intro i hi
          rcases List.mem_append.mp hi with hi | hi
          · exact lt_trans (h3 i hi) (Nat.lt_succ_self b)
          · simp at hi
            rw [hi]
            exact Nat.lt_succ_self b
      · rw [if_neg hpk] at hpe
        rw [← hpe]
        exact ⟨h1, h2, fun i hi => lt_trans (h3 i hi) (Nat.lt_succ_self b)⟩
    · have hkeyp : m.Pairwise (fun p q => p.1 ≠ q.1) :=
        List.pairwise_map.mp hkeys
      have hdisjp : m.Pairwise (fun p q => ∀ i ∈ p.2, i ∉ q.2) :=
        List.pairwise_map.mp hdisj
      rw [List.pairwise_map, List.pairwise_map]
      have hcomb := hkeyp.and hdisjp
      refine hcomb.imp_of_mem ?_
      intro p q hp hq hpq
      rcases hpq with ⟨hne, hdj⟩
      rcases hents q hq with ⟨_, _, hqb⟩
      by_cases hpk : p.1 = k <;> by_cases hqk : q.1 = k
      · exact absurd (hpk.trans hqk.symm) hne
      · rw [if_pos hpk, if_neg hqk]
        intro i hi
        rcases List.mem_append.mp hi with hi | hi
        · exact hdj i hi
        · simp at hi
          rw [hi]
          intro hb2
          exact absurd (hqb b hb2) (lt_irrefl b)
      · rw [if_neg hpk, if_pos hqk]
        intro i hi
        intro hib
        rcases List.mem_append.mp hib with hib | hib
        · exact hdj i hi hib
        · simp at hib
          rcases hents p hp with ⟨_, _, hpb⟩
          rw [hib] at hi
          exact absurd (hpb b hi) (lt_irrefl b)
      · rw [if_neg hpk, if_neg hqk]
        exact hdj
  · rw [if_neg hm]
    have hknot : k ∉ m.map Prod.fst := by
      intro hk
      rcases List.mem_map.mp hk with ⟨p, hp, hpk⟩
      apply hm
      unfold dmem
      rw [List.any_eq_true]
      exact ⟨p, hp, by simp [hpk]⟩
    refine ⟨?_, ?_, ?_⟩
    · rw [List.map_append]
      rw [List.nodup_append]
      exact ⟨hkeys, List.nodup_singleton k, by
        intro x hx hxk
        simp at hxk
        rw [hxk] at hx
        exact hknot hx⟩
    · intro e he
      rcases List.mem_append.mp he with he | he
      · rcases hents e he with ⟨h1, h2, h3⟩
        exact ⟨h1, h2, fun i hi => lt_trans (h3 i hi) (Nat.lt_succ_self b)⟩
      · simp at he
        rw [he]
        exact ⟨by simp, List.chain'_singleton b, by
          intro i hi
          simp at hi
          rw [hi]
          exact Nat.lt_succ_self b⟩
    · rw [List.map_append]
      rw [List.pairwise_append]
      refine ⟨hdisj, List.pairwise_singleton _ _, ?_⟩
      intro l1 hl1 l2 hl2 i hi
      simp at hl2
      rw [hl2]
      rcases List.mem_map.mp hl1 with ⟨p, hp, hpl⟩
      rcases hents p hp with ⟨_, _, h3⟩
      rw [← hpl] at hi
      intro hib
      simp at hib
      rw [hib] at hi
      exact absurd (h3 b hi) (lt_irrefl b)

/-- Phase-1 loop invariant: the slot list grows by one per input position
and the dedup map keeps the MInv invariant at the advanced counter. -/
theorem phase1_go_spec (env : BatchEnv) (dict_type : String) (rcj : Bool) :
    ∀ (raws : List String) (idx : ℕ) (slots : List (Option ResponseItem))
      (m : List (String × List ℕ)) (c : TTLCache ℚ),
      MInv m idx →
      (phase1_go env dict_type rcj raws idx slots m c).1.length =
        slots.length + raws.length ∧
      MInv (phase1_go env dict_type rcj raws idx slots m c).2.1
        (idx + raws.length) := by
  intro raws
  induction raws with
  | nil =>
    intro idx slots m c hM
    exact ⟨by simp [phase1_go], by simpa [phase1_go] using hM⟩
  | cons raw rest ih =>
    intro idx slots m c hM
    cases hn : normalize_word env.nfc raw with
    | error msg =>
      unfold phase1_go
      rw [hn]
      rcases ih (idx + 1) (slots ++ [some (build_error_item raw dict_type
          "输入验证失败" "validation" msg false false (py_strip raw)
          env.include_dict_type)]) m c (MInv_mono hM (Nat.le_succ idx)) with
        ⟨hl, hm2⟩
      constructor
      · rw [hl]; simp; omega
      · have harith : idx + 1 + rest.length = idx + (rest.length + 1) := by
          omega
        rw [harith] at hm2
        exact hm2
    | ok nw =>
      unfold phase1_go
      rw [hn]
      dsimp only
      cases hg : (c.get env.md5 nw dict_type env.now).1 with
      | some v =>
        dsimp only
        by_cases hv : v = ""
        · rw [if_pos hv]
          rcases ih (idx + 1) (slots ++ [none]) (dict_append m nw idx)
            (c.get env.md5 nw dict_type env.now).2
            (MInv_dict_append nw hM) with ⟨hl, hm2⟩
          constructor
          · rw [hl]; simp; omega
          · have harith : idx + 1 + rest.length = idx + (rest.length + 1) := by
              omega
            rw [harith] at hm2
            exact hm2
        · rw [if_neg hv]
          rcases ih (idx + 1) (slots ++ [some (batch_hit_item env dict_type
              nw v rcj)]) m (c.get env.md5 nw dict_type env.now).2
            (MInv_mono hM (Nat.le_succ idx)) with ⟨hl, hm2⟩
          constructor
          · rw [hl]; simp; omega
          · have harith : idx + 1 + rest.length = idx + (rest.length + 1) := by
              omega
            rw [harith] at hm2
            exact hm2
      | none =>
        rcases ih (idx + 1) (slots ++ [none]) (dict_append m nw idx)
          (c.get env.md5 nw dict_type env.now).2
          (MInv_dict_append nw hM) with ⟨hl, hm2⟩
        constructor
        · rw [hl]; simp; omega
        · have harith : idx + 1 + rest.length = idx + (rest.length + 1) := by
            omega
          rw [harith] at hm2
          exact hm2

theorem foldl_set_length (f : ℕ → Option ResponseItem) :
    ∀ (idxs : List ℕ) (slots : List (Option ResponseItem)),
      (idxs.foldl (fun sl i => sl.set i (f i)) slots).length =
        slots.length := by
  intro idxs
  induction idxs with
  | nil => intro slots; rfl
  | cons j rest ih =>
    intro slots
    rw [List.foldl_cons, ih, List.length_set]

theorem foldl_set_get_not (f : ℕ → Option ResponseItem) :
    ∀ (idxs : List ℕ) (slots : List (Option ResponseItem)) (i : ℕ),
      i ∉ idxs →
      (idxs.foldl (fun sl i => sl.set i (f i)) slots)[i]? = slots[i]? := by
  intro idxs
  induction idxs with
  | nil => intro slots i _; rfl
  | cons j rest ih =>
    intro slots i hi
    rw [List.foldl_cons, ih _ i (fun hh => hi (List.mem_cons_of_mem _ hh))]
    refine List.getElem?_set_ne ?_
    intro hh
    apply hi
    rw [← hh]
    exact List.mem_cons_self j rest

theorem foldl_set_get_mem (f : ℕ → Option ResponseItem) :
    ∀ (idxs : List ℕ) (slots : List (Option ResponseItem)) (i : ℕ),
      idxs.Nodup → i ∈ idxs → i < slots.length →
      (idxs.foldl (fun sl i => sl.set i (f i)) slots)[i]? = some (f i) := by
  intro idxs
  induction idxs with
  | nil => intro slots i _ hi _; simp at hi
  | cons j rest ih =>
    intro slots i hnd hi hlen
    rw [List.foldl_cons]
    rcases List.mem_cons.mp hi with hi | hi
    · subst hi
      have hnotin : i ∉ rest := (List.nodup_cons.mp hnd).1
      rw [foldl_set_get_not f rest _ i hnotin]
      exact List.getElem?_set_self hlen
    · exact ih _ i (List.nodup_cons.mp hnd).2 hi
        (by rw [List.length_set]; exact hlen)

theorem backfill_entry_length (item : ResponseItem) (w : String)
    (idxs : List ℕ) (slots : List (Option ResponseItem)) :
    (backfill_entry item w idxs slots).length = slots.length := by
  cases idxs with
  | nil => rfl
  | cons i0 rest =>
    unfold backfill_entry
    exact foldl_set_length _ _ _

theorem backfill_entry_get_not (item : ResponseItem) (w : String)
    (idxs : List ℕ) (slots : List (Option ResponseItem)) (i : ℕ)
    (hi : i ∉ idxs) :
    (backfill_entry item w idxs slots)[i]? = slots[i]? := by
  cases idxs with
  | nil => rfl
  | cons i0 rest =>
    unfold backfill_entry
    exact foldl_set_get_not _ _ _ i hi

theorem backfill_entry_get_mem (item : ResponseItem) (w : String) (i0 : ℕ)
    (rest : List ℕ) (slots : List (Option ResponseItem)) (i : ℕ)
    (hnd : (i0 :: rest).Nodup) (hi : i ∈ i0 :: rest)
    (hlen : i < slots.length) :
    (backfill_entry item w (i0 :: rest) slots)[i]? =
      some
        (some { item with deduped := decide (i ≠ i0), source_word := w }) := by
  unfold backfill_entry
  exact foldl_set_get_mem _ _ _ i hnd hi hlen

theorem backfill_cons (fetched : List (String × ResponseItem))
    (e : String × List ℕ) (m2 : List (String × List ℕ))
    (slots : List (Option ResponseItem)) :
    backfill fetched (e :: m2) slots =
      backfill fetched m2
        (backfill_entry ((dlookup fetched e.1).getD default_item) e.1 e.2
          slots) :=
  rfl

theorem backfill_get_not (fetched : List (String × ResponseItem)) :
    ∀ (m : List (String × List ℕ)) (slots : List (Option ResponseItem))
      (i : ℕ), (∀ e ∈ m, i ∉ e.2) →
      (backfill fetched m slots)[i]? = slots[i]? := by
  intro m
  induction m with
  | nil => intro slots i _; rfl
  | cons e m2 ih =>
    intro slots i h
    rw [backfill_cons]
    rw [ih _ i (fun e2 he2 => h e2 (List.mem_cons_of_mem _ he2))]
    exact backfill_entry_get_not _ _ _ _ i (h e (List.mem_cons_self _ _))

theorem backfill_length (fetched : List (String × ResponseItem)) :
    ∀ (m : List (String × List ℕ)) (slots : List (Option ResponseItem)),
      (backfill fetched m slots).length = slots.length := by
  intro m
  induction m with
  | nil => intro slots; rfl
  | cons e m2 ih =>
    intro slots
    rw [backfill_cons, ih, backfill_entry_length]

theorem backfill_get_mem (fetched : List (String × ResponseItem)) :
    ∀ (m : List (String × List ℕ)) (slots : List (Option ResponseItem)),
      (m.map Prod.snd).Pairwise (fun l1 l2 => ∀ i ∈ l1, i ∉ l2) →
      (∀ e ∈ m, e.2.Chain' (· < ·)) →
      (∀ e ∈ m, ∀ i ∈ e.2, i < slots.length) →
      ∀ (w : String) (i0 : ℕ) (rest : List ℕ),
        (w, i0 :: rest) ∈ m → ∀ i ∈ i0 :: rest,
        (backfill fetched m slots)[i]? =
          some (some { (dlookup fetched w).getD default_item with
            deduped := decide (i ≠ i0), source_word := w }) := by
  intro m
  induction m with
  | nil => intro slots _ _ _ w i0 rest hmem; simp at hmem
  | cons e m2 ih =>
    intro slots hpw hch hbd w i0 rest hmem i hi
    rw [backfill_cons]
    rcases List.mem_cons.mp hmem with heq | hmem2
    · have he1 : e.1 = w := by rw [← heq]
      have he2 : e.2 = i0 :: rest := by rw [← heq]
      have hchain : (i0 :: rest).Chain' (· < ·) := by
        rw [← he2]
        exact hch e (List.mem_cons_self _ _)
      have hnd : (i0 :: rest).Nodup :=
        (List.chain'_iff_pairwise.mp hchain).imp fun hlt => ne_of_lt hlt
      have hnot2 : ∀ e2 ∈ m2, i ∉ e2.2 := by
        intro e2 he2m
        have hrel := (List.pairwise_cons.mp (by
          rw [List.map_cons] at hpw; exact hpw)).1
        have := hrel e2.2 (List.mem_map.mpr ⟨e2, he2m, rfl⟩)
        apply this
        rw [he2]
        exact hi
      rw [backfill_get_not fetched m2 _ i hnot2]
      rw [he1, he2]
      exact backfill_entry_get_mem ((dlookup fetched w).getD default_item)
        w i0 rest slots i hnd hi
        (by
          have := hbd e (List.mem_cons_self _ _) i (by rw [he2]; exact hi)
          exact this)
    · have hlen2 : ∀ e2 ∈ m2, ∀ j ∈ e2.2,
          j < (backfill_entry ((dlookup fetched e.1).getD default_item) e.1
            e.2 slots).length := by
        intro e2 he2m j hj
        rw [backfill_entry_length]
        exact hbd e2 (List.mem_cons_of_mem _ he2m) j hj
      exact ih _
        (by rw [List.map_cons] at hpw; exact (List.pairwise_cons.mp hpw).2)
        (fun e2 he2m => hch e2 (List.mem_cons_of_mem _ he2m))
        hlen2 w i0 rest hmem2 i hi

/-- Claim C5: in the batch pipeline, each distinct normalized cache-miss
word is charged exactly one rate-limit token (the single consume call asks
for exactly one token per distinct miss word) and causes exactly one
upstream fetch, no matter how many input positions share it; the fetched
result is written to every position sharing that normalized word, with the
first such position (by input order) marked deduped=false, every repeat
marked deduped=true, and all of them carrying source_word equal to the
shared normalized word.  The p and B arguments name the phase-1 result and
the pipeline output; the hypotheses state that the batch passes validation,
has at least one miss, and that the token charge is granted. -/
theorem batch_dedup_spec (env : BatchEnv) (words : List String)
    (dict_type : String) (rcj : Bool)
    (p : List (Option ResponseItem) × List (String × List ℕ) × TTLCache ℚ)
    (B : BatchOutput)
    (hp : p = phase1_go env dict_type rcj words 0 [] [] env.cache)
    (hB : B = batch_search_words_impl env words dict_type rcj)
    (hne : ¬ words.length = 0) (hlen10 : ¬ 10 < words.length)
    (hm0 : ¬ p.2.1.length = 0)
    (hallow : (env.bucket.consume ((p.2.1.map Prod.fst).length : ℚ)
      env.now).1 = true) :
    B.charged = some (p.2.1.map Prod.fst).length ∧
    (p.2.1.map Prod.fst).Nodup ∧
    B.fetched = p.2.1.map Prod.fst ∧
    (∀ w ∈ B.fetched, B.fetched.count w = 1) ∧
    (∀ w idxs, (w, idxs) ∈ p.2.1 →
      ∃ i0 rest, idxs = i0 :: rest ∧ (∀ i ∈ idxs, i0 ≤ i) ∧
      ∀ i ∈ idxs, B.items[i]? =
        some (some { fetch_one env dict_type w with
          deduped := decide (i ≠ i0), source_word := w })) := by
  subst hp
  subst hB
  have hspec := phase1_go_spec env dict_type rcj words 0 [] [] env.cache
    (MInv_nil 0)
  have hslots := hspec.1
  have hMInv := hspec.2
  have hBeq : batch_search_words_impl env words dict_type rcj =
      { items := backfill
          (build_fetched_by_word
            (((phase1_go env dict_type rcj words 0 [] []
              env.cache).2.1.map Prod.fst).map (fetch_one env dict_type)))
          (phase1_go env dict_type rcj words 0 [] [] env.cache).2.1
          (phase1_go env dict_type rcj words 0 [] [] env.cache).1,
        charged := some ((phase1_go env dict_type rcj words 0 [] []
          env.cache).2.1.map Prod.fst).length,
        allowed := true,
        fetched := (phase1_go env dict_type rcj words 0 [] []
          env.cache).2.1.map Prod.fst,
        top_error := none,
        cache := (phase1_go env dict_type rcj words 0 [] [] env.cache).2.2,
        bucket := (env.bucket.consume
          (((phase1_go env dict_type rcj words 0 [] []
            env.cache).2.1.map Prod.fst).length : ℚ) env.now).2 } := by
    unfold batch_search_words_impl
    rw [if_neg hne, if_neg hlen10]
    dsimp only
    rw [if_neg hm0]
    rw [if_neg (by rw [hallow]; simp)]
  rw [hBeq]
  refine ⟨rfl, hMInv.1, rfl, ?_, ?_⟩
  · intro w hw
    exact List.count_eq_one_of_mem hMInv.1 hw
  · intro w idxs hmem
    rcases hMInv.2.1 (w, idxs) hmem with ⟨hne2, hch, hbound⟩
    rcases idxs with _ | ⟨i0, rest⟩
    · exact absurd rfl hne2
    refine ⟨i0, rest, rfl, ?_, ?_⟩
    · intro i hi
      rcases List.mem_cons.mp hi with hi | hi
      · rw [hi]
      · exact le_of_lt (List.rel_of_pairwise_cons
          (List.chain'_iff_pairwise.mp hch) hi)
    · intro i hi
      have hw_in : w ∈ (phase1_go env dict_type rcj words 0 [] []
          env.cache).2.1.map Prod.fst :=
        List.mem_map.mpr ⟨(w, i0 :: rest), hmem, rfl⟩
      have hbf := backfill_get_mem
        (build_fetched_by_word
          (((phase1_go env dict_type rcj words 0 [] []
            env.cache).2.1.map Prod.fst).map (fetch_one env dict_type)))
        (phase1_go env dict_type rcj words 0 [] [] env.cache).2.1
        (phase1_go env dict_type rcj words 0 [] [] env.cache).1
        hMInv.2.2
        (fun e he => (hMInv.2.1 e he).2.1)
        (fun e he j hj => by
          rw [hslots]
          simpa using (hMInv.2.1 e he).2.2 j hj)
        w i0 rest hmem i hi
      rw [dlookup_build_fetched env dict_type _ w hw_in] at hbf
      exact hbf

/-- Concrete batch environment for the C5 witness: empty cache, full token
bucket, upstream always succeeds. -/
def c5env : BatchEnv :=
  { nfc := id, md5 := id, dumps := fun _ => "json",
    parse := fun _ => .ok [], loads_results := fun _ => [],
    loads_count := fun _ => none,
    cache := ⟨[], 10, 60, .plain, []⟩, bucket := ⟨10, 10, 0, 1⟩, now := 0,
    outcomesFor := fun _ _ => .ok "data", grantsFor := fun _ _ => true,
    max_attempts := 3, cache_ttl := 60, cache_negative_ttl := 30,
    include_dict_type := true }

/-- Witness for batch_dedup_spec: on the batch a, a, b with everything a
cache miss, exactly one token per distinct miss word is charged. -/
theorem batch_dedup_spec_witness :
    (batch_search_words_impl c5env ["a", "a", "b"] "ko-zh" false).charged =
      some ((phase1_go c5env "ko-zh" false ["a", "a", "b"] 0 [] []
        c5env.cache).2.1.map Prod.fst).length := by
  have hl : ((phase1_go c5env "ko-zh" false ["a", "a", "b"] 0 [] []
      c5env.cache).2.1.map Prod.fst).length = 2 := by decide
  refine (batch_dedup_spec c5env ["a", "a", "b"] "ko-zh" false _ _ rfl rfl
    (by decide) (by decide) (by decide) ?_).1
  rw [hl]
  norm_num [c5env, TokenBucket.consume, TokenBucket.refill]

end NaverDict
